/-
Verification of the accessibility core (Enhancer + Auditor) of the
Accessible-Documentation-Generator repository.

The HTML tree manipulated by both components (parsed by node-html-parser in
the source) is shallowly embedded as a tree of element/text nodes with an
ordered attribute list.  DOM-style queries (querySelector / querySelectorAll,
document order = pre-order) are embedded as descendant searches; in-place
mutation is embedded as pure tree rewriting.  `Math.random()`-based id
generation is embedded as an oracle `rnd : Nat -> String` consumed in call
order.  Real-valued contrast arithmetic (delegated by the source to the
external wcag-contrast dependency) is modelled over the reals.
-/
import Mathlib

namespace AccessDocs

/-! ## JavaScript string primitives -/

/-- The whitespace class used by JavaScript `trim` and the regex class in the
slugification code, restricted to the ASCII characters that can occur here. -/
def jsIsSpace (c : Char) : Bool :=
  c = ' ' || c = '\t' || c = '\n' || c = '\r' || c = '\x0b' || c = '\x0c'

/-- JavaScript `String.prototype.trim`. -/
def jsTrim (s : String) : String :=
  String.mk (((s.toList.dropWhile jsIsSpace).reverse.dropWhile jsIsSpace).reverse)

/-- JavaScript `String.prototype.toLowerCase` (ASCII). -/
def jsToLower (s : String) : String := String.mk (s.toList.map Char.toLower)

/-- `pat` is a prefix of `s`. -/
def listPre (pat s : List Char) : Bool :=
  match pat, s with
  | [], _ => true
  | _ :: _, [] => false
  | p :: ps, c :: cs => p = c && listPre ps cs

/-- `pat` occurs contiguously in `s`. -/
def listInf (pat s : List Char) : Bool :=
  match s with
  | [] => listPre pat []
  | _ :: cs => listPre pat s || listInf pat cs

/-- JavaScript `String.prototype.includes`: contiguous substring test. -/
def jsIncludes (s pat : String) : Bool := listInf pat.toList s.toList

/-- Numeric value of a list of decimal digits. -/
def natOfDigits (ds : List Char) : Nat :=
  ds.foldl (fun a c => a * 10 + (c.toNat - 48)) 0

/-- JavaScript `parseInt(s)` (radix 10): skip leading whitespace, optional
sign, then a nonempty run of digits; `none` models `NaN`. -/
def jsParseInt (s : String) : Option Int :=
  let cs := s.toList.dropWhile jsIsSpace
  let core : List Char → Option Int := fun l =>
    let ds := l.takeWhile Char.isDigit
    if ds.isEmpty then none else some (Int.ofNat (natOfDigits ds))
  match cs with
  | '-' :: rest => (core rest).map (fun n => -n)
  | '+' :: rest => core rest
  | rest => core rest

/-- JavaScript truthiness of a `getAttribute` result / string property:
`null`/`undefined` and the empty string are falsy. -/
def truthy : Option String → Bool
  | none => false
  | some s => s ≠ ""

/-- A JavaScript strict equality `===` between a boolean and a string is
always false (the two operands have different types).  This models the
comparison `!img.getAttribute('aria-hidden') === 'true'` in the source's
empty-alt check, where the negation binds before the comparison. -/
def jsEqBoolStr (_ : Bool) (_ : String) : Bool := false

/-! ## The HTML tree -/

/-- A node of the parsed HTML tree: an element with a tag, an ordered
attribute list and children, or a text node. -/
inductive Node where
  | elem (tag : String) (attrs : List (String × String)) (children : List Node)
  | text (s : String)
deriving Repr

abbrev Attrs := List (String × String)

/-- First value bound to an attribute name (attributes are unique per name
in a parsed document; reads take the first binding). -/
def getA (a : Attrs) (k : String) : Option String :=
  (a.find? (fun p => p.1 = k)).map (fun p => p.2)

/-- `hasAttribute`. -/
def hasA (a : Attrs) (k : String) : Bool :=
  (a.find? (fun p => p.1 = k)).isSome

/-- `setAttribute`: overwrite in place if present, else append. -/
def setA (a : Attrs) (k v : String) : Attrs :=
  if hasA a k then a.map (fun p => if p.1 = k then (k, v) else p)
  else a ++ [(k, v)]

def Node.tag : Node → String
  | .elem t _ _ => t
  | .text _ => "#text"

def Node.attrs : Node → Attrs
  | .elem _ a _ => a
  | .text _ => []

def Node.children : Node → List Node
  | .elem _ _ ch => ch
  | .text _ => []

def Node.isElem : Node → Bool
  | .elem _ _ _ => true
  | .text _ => false

/-- Attribute read on a node (`getAttribute`). -/
def attr (n : Node) (k : String) : Option String := getA n.attrs k

/-- `classList` of a node: the class attribute split on whitespace. -/
def classList (n : Node) : List String :=
  (((attr n "class").getD "").toList.splitOnP jsIsSpace).map String.mk
    |>.filter (fun s => s ≠ "")

def hasClass (n : Node) (c : String) : Bool := (classList n).contains c

/-- `classList.add`: append the token to the class attribute if absent. -/
def addClass (a : Attrs) (c : String) : Attrs :=
  match getA a "class" with
  | none => setA a "class" c
  | some old =>
      if (((old.toList.splitOnP jsIsSpace).map String.mk).filter
            (fun s => s ≠ "")).contains c then a
      else setA a "class" (if old = "" then c else old ++ " " ++ c)

mutual
/-- `textContent`: concatenation of all descendant text. -/
def textContent : Node → String
  | .text s => s
  | .elem _ _ ch => textContentList ch
def textContentList : List Node → String
  | [] => ""
  | n :: ns => textContent n ++ textContentList ns
end

mutual
/-- `querySelector`-style first match among the node's descendants
(pre-order / document order; the node itself is not considered). -/
def qsel (p : Node → Bool) : Node → Option Node
  | .text _ => none
  | .elem _ _ ch => qselList p ch
def qselList (p : Node → Bool) : List Node → Option Node
  | [] => none
  | n :: ns =>
      if p n then some n
      else match qsel p n with
           | some m => some m
           | none => qselList p ns
end

mutual
/-- `querySelectorAll`-style list of matching descendants in document
order. -/
def collectDesc (p : Node → Bool) : Node → List Node
  | .text _ => []
  | .elem _ _ ch => collectList p ch
def collectList (p : Node → Bool) : List Node → List Node
  | [] => []
  | n :: ns => (if p n then [n] else []) ++ collectDesc p n ++ collectList p ns
end

mutual
/-- Matching descendants in document order, each carrying whether it has a
proper ancestor (inside the searched node) satisfying `anc`; used to embed
`closest` on query results. -/
def collectAnc (p anc : Node → Bool) (flag : Bool) : Node → List (Node × Bool)
  | .text _ => []
  | .elem t a ch => collectAncList p anc (flag || anc (.elem t a ch)) ch
def collectAncList (p anc : Node → Bool) (flag : Bool) :
    List Node → List (Node × Bool)
  | [] => []
  | n :: ns =>
      (if p n then [(n, flag)] else []) ++ collectAnc p anc flag n ++
        collectAncList p anc flag ns
end

mutual
/-- Replace the first matching descendant (document order) by `f` of it. -/
def updFirst (p : Node → Bool) (f : Node → Node) : Node → Node
  | .text s => .text s
  | .elem t a ch => .elem t a (updFirstList p f ch)
def updFirstList (p : Node → Bool) (f : Node → Node) : List Node → List Node
  | [] => []
  | n :: ns =>
      if p n then f n :: ns
      else if (qsel p n).isSome then updFirst p f n :: ns
      else n :: updFirstList p f ns
end

mutual
/-- Replace the `i`-th matching descendant (document order, 0-based) by `f`
of it.  The state is `some k` while still seeking the `k`-th remaining
match, `none` once the replacement has been made. -/
def updNthA (p : Node → Bool) (f : Node → Node) :
    Option Nat → Node → Option Nat × Node
  | none, n => (none, n)
  | some k, .text s => (some k, .text s)
  | some k, .elem t a ch =>
      let r := updNthAList p f (some k) ch
      (r.1, .elem t a r.2)
def updNthAList (p : Node → Bool) (f : Node → Node) :
    Option Nat → List Node → Option Nat × List Node
  | st, [] => (st, [])
  | none, ns => (none, ns)
  | some k, n :: ns =>
      if p n then
        if k = 0 then (none, f n :: ns)
        else
          let r := updNthA p f (some (k - 1)) n
          let r2 := updNthAList p f r.1 ns
          (r2.1, r.2 :: r2.2)
      else
        let r := updNthA p f (some k) n
        let r2 := updNthAList p f r.1 ns
        (r2.1, r.2 :: r2.2)
end

/-- Replace the `i`-th matching descendant by `f` of it. -/
def updNth (p : Node → Bool) (f : Node → Node) (i : Nat) (t : Node) : Node :=
  (updNthA p f (some i) t).2

/-- The `i`-th matching descendant in document order. -/
def nthDesc (p : Node → Bool) (t : Node) (i : Nat) : Option Node :=
  (collectDesc p t).get? i

/-- `getElementById`: first element with that id; the empty string never
matches. -/
def getElemById (t : Node) (i : String) : Option Node :=
  if i = "" then none else qsel (fun n => attr n "id" = some i) t

mutual
/-- Generic attribute-rewriting pass: visit every element in document order
(top-down), threading a state `st` and a downward context `ctx`; `f` maps the
element's state, context, tag, attributes and (original) children to new
state and attributes, and `g` extends the context entering an element. -/
def mapAttrs (f : σ → γ → String → Attrs → List Node → σ × Attrs)
    (g : γ → Node → γ) (st : σ) (ctx : γ) : Node → σ × Node
  | .text s => (st, .text s)
  | .elem t a ch =>
      let r := f st ctx t a ch
      let r2 := mapAttrsList f g r.1 (g ctx (.elem t a ch)) ch
      (r2.1, .elem t r.2 r2.2)
def mapAttrsList (f : σ → γ → String → Attrs → List Node → σ × Attrs)
    (g : γ → Node → γ) (st : σ) (ctx : γ) : List Node → σ × List Node
  | [] => (st, [])
  | n :: ns =>
      let r := mapAttrs f g st ctx n
      let r2 := mapAttrsList f g r.1 ctx ns
      (r2.1, r.2 :: r2.2)
end

mutual
/-- Boolean structural equality of nodes. -/
def nodeEq : Node → Node → Bool
  | .text s, .text t => s = t
  | .elem t a ch, .elem t2 a2 ch2 => t = t2 && decide (a = a2) && nodesEq ch ch2
  | _, _ => false
def nodesEq : List Node → List Node → Bool
  | [], [] => true
  | n :: ns, m :: ms => nodeEq n m && nodesEq ns ms
  | _, _ => false
end

/-- Structural induction over nodes with a membership hypothesis on
children. -/
theorem Node.indOn (P : Node → Prop)
    (he : ∀ t a ch, (∀ n ∈ ch, P n) → P (.elem t a ch))
    (ht : ∀ s, P (.text s)) : ∀ n, P n := by
  intro n
  refine @Node.rec P (fun l => ∀ x ∈ l, P x) ?_ ?_ ?_ ?_ n
  · intro t a ch ih; exact he t a ch ih
  · exact ht
  · intro x hx; cases hx
  · intro h tl ph ptl x hx
    cases hx with
    | head => exact ph
    | tail _ hx => exact ptl x hx

theorem nodeEq_iff : ∀ n m : Node, nodeEq n m = true ↔ n = m := by
  intro n
  induction n using Node.indOn with
  | ht s => intro m; cases m <;> simp [nodeEq]
  | he t a ch ih =>
    intro m
    cases m with
    | text s => simp [nodeEq]
    | elem t2 a2 ch2 =>
      simp only [nodeEq, Bool.and_eq_true, decide_eq_true_eq, Node.elem.injEq]
      constructor
      · rintro ⟨⟨ht', ha⟩, hch⟩
        refine ⟨by simpa using ht', ha, ?_⟩
        clear ha ht'
        induction ch generalizing ch2 with
        | nil => cases ch2 <;> simp_all [nodesEq]
        | cons x xs ihx =>
          cases ch2 with
          | nil => simp [nodesEq] at hch
          | cons y ys =>
            simp only [nodesEq, Bool.and_eq_true] at hch
            have h1 := (ih x (by simp) y).mp hch.1
            have h2 := ihx (fun n hn => ih n (by simp [hn])) ys hch.2
            simp [h1, h2]
      · rintro ⟨ht', ha, hch⟩
        subst ht'; subst ha; subst hch
        refine ⟨⟨by simp, rfl⟩, ?_⟩
        induction ch with
        | nil => simp [nodesEq]
        | cons x xs ihx =>
          simp only [nodesEq, Bool.and_eq_true]
          exact ⟨(ih x (by simp) x).mpr rfl, ihx (fun n hn => ih n (by simp [hn]))⟩

instance : DecidableEq Node := fun n m =>
  decidable_of_iff (nodeEq n m = true) (nodeEq_iff n m)

/-! ## Shared selector predicates and pass helpers -/

def tagIs (x : String) (n : Node) : Bool := n.tag = x

def isHeadingTag (t : String) : Bool :=
  t = "h1" || t = "h2" || t = "h3" || t = "h4" || t = "h5" || t = "h6"

def isHeading (n : Node) : Bool := isHeadingTag n.tag

/-- Numeric heading level, `parseInt(tagName.charAt(1))` on `h1`..`h6`. -/
def headingLevel (t : String) : Nat :=
  if t = "h1" then 1 else if t = "h2" then 2 else if t = "h3" then 3
  else if t = "h4" then 4 else if t = "h5" then 5 else if t = "h6" then 6 else 0

def strStarts (s pat : String) : Bool := listPre pat.toList s.toList

/-- Apply an attribute rewrite to an element node. -/
def onAttrs (f : Attrs → Attrs) : Node → Node
  | .elem t a ch => .elem t (f a) ch
  | .text s => .text s

/-- Stateless pass over every descendant element's attributes (may read
children); like `querySelectorAll`, the node itself is not visited. -/
def forEachElem (f : String → Attrs → List Node → Attrs) (t : Node) : Node :=
  match t with
  | .text s => .text s
  | .elem tg a ch =>
      .elem tg a
        (mapAttrsList (γ := Unit) (fun _ _ tg2 a2 ch2 => ((), f tg2 a2 ch2))
          (fun _ _ => ()) () () ch).2

/-- Stateful pass over every descendant element's attributes in document
order. -/
def forEachElemSt (f : σ → String → Attrs → σ × Attrs) (s0 : σ) (t : Node) :
    Node :=
  match t with
  | .text s => .text s
  | .elem tg a ch =>
      .elem tg a
        (mapAttrsList (γ := Unit) (fun s _ tg2 a2 _ => f s tg2 a2)
          (fun _ _ => ()) s0 () ch).2

/-- Set one attribute on the i-th matching descendant. -/
def setOnNth (p : Node → Bool) (i : Nat) (f : Attrs → Attrs) (t : Node) : Node :=
  updNth p (onAttrs f) i t

/-! ## Enhancer (src/src/accessibility/aria.js) -/

/-- Frontmatter keys consumed by the Enhancer; all optional. -/
structure Frontmatter where
  language : Option String := none
  title : Option String := none

/-- `ensureHtmlLangAttribute`: set `lang` on the `html` element if present. -/
def ensureHtmlLangAttribute (t : Node) (language : String) : Node :=
  updFirst (tagIs "html") (onAttrs (fun a => setA a "lang" language)) t

def titleElemOf (ti : String) : Node := .elem "title" [] [.text ti]

/-- Title handling inside an existing `head`: create a `title` child if
missing, fill it in only if its text is blank. -/
def fixTitleIn (ti : String) (head : Node) : Node :=
  match qsel (tagIs "title") head with
  | none => .elem head.tag head.attrs (head.children ++ [titleElemOf ti])
  | some tl =>
      if jsTrim (textContent tl) = "" then
        updFirst (tagIs "title") (fun n => .elem n.tag n.attrs [.text ti]) head
      else head

/-- `ensureDocumentTitle`: no-op without a truthy frontmatter title;
otherwise fix the first `head`, creating one (with the title inside) as the
`html` element's first child when absent; fragments without `html` are left
alone. -/
def ensureDocumentTitle (t : Node) (title : Option String) : Node :=
  if truthy title then
    let ti := title.getD ""
    match qsel (tagIs "head") t with
    | some _ => updFirst (tagIs "head") (fixTitleIn ti) t
    | none =>
        match qsel (tagIs "html") t with
        | some _ =>
            updFirst (tagIs "html")
              (fun n => .elem n.tag n.attrs
                (Node.elem "head" [] [titleElemOf ti] :: n.children)) t
        | none => t
  else t

/-- Matches `.content, #content, article, .main, #main`. -/
def isMainCandidate (n : Node) : Bool :=
  n.isElem &&
    (hasClass n "content" || attr n "id" = some "content" || n.tag = "article" ||
      hasClass n "main" || attr n "id" = some "main")

/-- Attributes applied to the resolved main element: `role="main"` plus a
default `main-content` id when the id is missing or empty. -/
def mainAttrs (a : Attrs) : Attrs :=
  let a1 := setA a "role" "main"
  if truthy (getA a1 "id") then a1 else setA a1 "id" "main-content"

/-- Main-landmark resolution: existing `main` → first candidate container →
otherwise wrap all of `body`'s children in a synthesized `main`. -/
def landmarkMain (t : Node) : Node :=
  if (qsel (tagIs "main") t).isSome then
    updFirst (tagIs "main") (onAttrs mainAttrs) t
  else if (qsel isMainCandidate t).isSome then
    updFirst isMainCandidate (onAttrs mainAttrs) t
  else if (qsel (tagIs "body") t).isSome then
    updFirst (tagIs "body")
      (fun b => .elem b.tag b.attrs [.elem "main" (mainAttrs []) b.children]) t
  else t

/-- Per-`nav` default label rule. -/
def navFix (tg : String) (a : Attrs) : Attrs :=
  if tg = "nav" && !(hasA a "aria-label") then
    setA a "aria-label" "Main Navigation"
  else a

/-- Attributes applied to one `aside`: role plus numbered default label. -/
def asideAttrs (i : Nat) (a : Attrs) : Attrs :=
  let a1 := setA a "role" "complementary"
  if hasA a1 "aria-label" then a1
  else setA a1 "aria-label" ("Complementary Content " ++ toString (i + 1))

/-- Per-element step of the stateful `aside` numbering pass. -/
def asideFix (i : Nat) (tg : String) (a : Attrs) : Nat × Attrs :=
  if tg = "aside" then (i + 1, asideAttrs i a) else (i, a)

/-- `addDocumentLandmarks`: main resolution, then first `header` gets
`role="banner"` (the source queries with `querySelector`, hence only the
first match), every `nav` a default `aria-label`, first `footer`
`role="contentinfo"`, every `aside` `role="complementary"` plus a numbered
default label. -/
def addDocumentLandmarks (t : Node) : Node :=
  let t1 := landmarkMain t
  let t2 := updFirst (tagIs "header") (onAttrs (fun a => setA a "role" "banner")) t1
  let t3 := forEachElem (fun tg a _ => navFix tg a) t2
  let t4 := updFirst (tagIs "footer")
    (onAttrs (fun a => setA a "role" "contentinfo")) t3
  forEachElemSt asideFix 0 t4

/-- JavaScript word character (`\w`). -/
def isWordChar (c : Char) : Bool := c.isAlpha || c.isDigit || c = '_'

/-- Replace each maximal run of `p`-characters by the single character
`r`. -/
def collapseRuns (p : Char → Bool) (r : Char) : List Char → List Char
  | [] => []
  | [c] => if p c then [r] else [c]
  | c :: d :: cs =>
      if p c && p d then collapseRuns p r (d :: cs)
      else (if p c then r else c) :: collapseRuns p r (d :: cs)

/-- Heading slug: lowercase, strip characters outside word/space/hyphen,
collapse whitespace runs to hyphens, collapse hyphen runs. -/
def slugify (s : String) : String :=
  let low := s.toList.map Char.toLower
  let kept := low.filter (fun c => isWordChar c || jsIsSpace c || c = '-')
  String.mk (collapseRuns (fun c => c = '-') '-' (collapseRuns jsIsSpace '-' kept))

/-- Per-heading attribute fix: slug id when the id is missing or empty,
`tabindex="-1"`, `aria-level` for explicit `role="heading"`. -/
def headingFix (tg : String) (a : Attrs) (ch : List Node) : Attrs :=
  if isHeadingTag tg then
    let a1 :=
      if truthy (getA a "id") then a
      else setA a "id" (slugify (jsTrim (textContentList ch)))
    let a2 := setA a1 "tabindex" "-1"
    if getA a2 "role" = some "heading" && !(hasA a2 "aria-level") then
      setA a2 "aria-level" (toString (headingLevel tg))
    else a2
  else a

/-- `enhanceHeadings`: slug ids for id-less headings, `tabindex="-1"` on all
headings, `aria-level` for explicit `role="heading"`. -/
def enhanceHeadings (t : Node) : Node := forEachElem headingFix t

def warnAttrs (msg : String) (a : Attrs) : Attrs :=
  setA (addClass a "a11y-warning") "data-a11y-warning" msg

/-- `previousElementSibling` relative to a reversed list of already-visited
siblings. -/
def prevElem? : List Node → Option Node
  | [] => none
  | n :: ns => if n.isElem then some n else prevElem? ns

/-- Rewrite the previous element sibling in the reversed sibling list. -/
def updPrevElem (f : Node → Node) : List Node → List Node
  | [] => []
  | n :: ns => if n.isElem then f n :: ns else n :: updPrevElem f ns

/-- Per-table part of `enhanceTables`: `role="table"` plus the caption
fallback — link an immediately preceding heading sibling via
`aria-labelledby` (generating the heading an id when needed) or apply a
generic `aria-label`.  `acc` is the reversed list of the table's already
visited left siblings, which the heading-id assignment may rewrite. -/
def tableCaption (rnd : Nat → String) (st : Nat) (acc : List Node)
    (a : Attrs) (ch : List Node) : Nat × List Node × Attrs :=
  let a1 := setA a "role" "table"
  if (qselList (tagIs "caption") ch).isSome then (st, acc, a1)
  else
    match prevElem? acc with
    | some pv =>
      if isHeadingTag pv.tag then
        if truthy (attr pv "id") then
          (st, acc, setA a1 "aria-labelledby" ((attr pv "id").getD ""))
        else
          let pid := "table-heading-" ++ rnd st
          (st + 1, updPrevElem (onAttrs (fun pa => setA pa "id" pid)) acc,
           setA a1 "aria-labelledby" pid)
      else if hasA a1 "aria-label" then (st, acc, a1)
      else (st, acc, setA a1 "aria-label" "Table")
    | none =>
      if hasA a1 "aria-label" then (st, acc, a1)
      else (st, acc, setA a1 "aria-label" "Table")

mutual
/-- Per-node descent of the caption pass. -/
def capN (rnd : Nat → String) : Nat → Node → Nat × Node
  | st, .text s => (st, .text s)
  | st, .elem tg a ch =>
      let r := capL rnd st [] ch
      (r.1, .elem tg a r.2)
/-- Walk sibling lists in document order applying `tableCaption` to every
table; `acc` holds the processed left siblings of the current position in
reverse. -/
def capL (rnd : Nat → String) : Nat → List Node → List Node → Nat × List Node
  | st, acc, [] => (st, acc.reverse)
  | st, acc, n :: ns =>
      if n.tag = "table" then
        match tableCaption rnd st acc n.attrs n.children with
        | (st2, acc2, a2) =>
          match capN rnd st2 n with
          | (st3, n3) => capL rnd st3 (.elem n.tag a2 n3.children :: acc2) ns
      else
        match capN rnd st n with
        | (st2, n2) => capL rnd st2 (n2 :: acc) ns
end

/-- Cell normalization inside tables: `th` scope defaulting to `col`, `tr`
`role="row"`, `td` `role="cell"`, applied to every cell having a `table`
ancestor.  The source interleaves this with `tableCaption` per table, but
the two touch disjoint attributes, so the passes commute. -/
def cellFix (inTab : Bool) (tg : String) (a : Attrs) : Attrs :=
  if inTab then
    if tg = "th" then
      setA a "scope"
        (match getA a "scope" with
         | some s => if s = "" then "col" else s
         | none => "col")
    else if tg = "tr" then setA a "role" "row"
    else if tg = "td" then setA a "role" "cell"
    else a
  else a

def cellPass (t : Node) : Node :=
  match t with
  | .text s => .text s
  | .elem tg0 a0 ch0 =>
      .elem tg0 a0
        ((mapAttrsList (γ := Bool)
          (fun _ inTab tg a _ => ((), cellFix inTab tg a))
          (fun c n => c || n.tag = "table") () (tg0 = "table") ch0).2)

/-- `enhanceTables`. -/
def enhanceTables (rnd : Nat → String) (st : Nat) (t : Node) : Nat × Node :=
  match t with
  | .text s => (st, .text s)
  | .elem tg a ch =>
      match capL rnd st [] ch with
      | (st2, ch2) => (st2, cellPass (.elem tg a ch2))

/-- Labelling of one `form` element: link to an interior heading (generated
id if needed) or fall back to a generic label. -/
def formFix (rnd : Nat → String) (st : Nat) (f : Node) : Nat × Node :=
  if hasA f.attrs "aria-label" || hasA f.attrs "aria-labelledby" then (st, f)
  else
    match qsel isHeading f with
    | some h =>
        if truthy (attr h "id") then
          (st, onAttrs (fun a => setA a "aria-labelledby" ((attr h "id").getD "")) f)
        else
          let hid := "form-heading-" ++ rnd st
          let f1 := updFirst isHeading (onAttrs (fun a => setA a "id" hid)) f
          (st + 1, onAttrs (fun a => setA a "aria-labelledby" hid) f1)
    | none => (st, onAttrs (fun a => setA a "aria-label" "Form") f)

def formsStep (rnd : Nat → String) (p : Nat × Node) (i : Nat) : Nat × Node :=
  match p with
  | (st, t) =>
    match nthDesc (tagIs "form") t i with
    | none => (st, t)
    | some f =>
        match formFix rnd st f with
        | (st2, f2) => (st2, updNth (tagIs "form") (fun _ => f2) i t)

def isInputEl (n : Node) : Bool :=
  n.tag = "input" || n.tag = "select" || n.tag = "textarea"

/-- The skip in the source's input loop: `input.type` being
hidden/submit/button (the DOM property lowercases the attribute; `select`
and `textarea` elements report other type strings). -/
def inputSkipped (n : Node) : Bool :=
  n.tag = "input" &&
    (let ty := jsToLower ((attr n "type").getD "")
     ty = "hidden" || ty = "submit" || ty = "button")

/-- One iteration of the source's input-labelling loop on the `i`-th
input/select/textarea (with its `label`-ancestor flag), against the current
tree. -/
def inputStep (rnd : Nat → String) (p : Nat × Node) (i : Nat) : Nat × Node :=
  match p with
  | (st, t) =>
    match (collectAncList isInputEl (tagIs "label") false t.children).get? i with
    | none => (st, t)
    | some (el, inLabel) =>
      if inputSkipped el then (st, t)
      else
        let oldId := (attr el "id").getD ""
        let st1 := if oldId = "" then st + 1 else st
        let t1 :=
          if oldId = "" then
            updNth isInputEl
              (onAttrs (fun a => setA a "id" ("input-" ++ rnd st))) i t
          else t
        let hasLabelFor :=
          if oldId ≠ "" then
            (qsel (fun n => n.tag = "label" && attr n "for" = some oldId) t1).isSome
          else false
        let hasLab := hasLabelFor || inLabel || hasA el.attrs "aria-label" ||
          hasA el.attrs "aria-labelledby"
        let t2 :=
          if !hasLab then
            updNth isInputEl
              (onAttrs (warnAttrs "Input has no accessible label")) i t1
          else t1
        let t3 :=
          if hasA el.attrs "required" then
            updNth isInputEl (onAttrs (fun a => setA a "aria-required" "true")) i t2
          else t2
        (st1, t3)

/-- `enhanceForms`: label every form, then audit/normalize every input. -/
def enhanceForms (rnd : Nat → String) (st : Nat) (t : Node) : Nat × Node :=
  match (List.range (collectDesc (tagIs "form") t).length).foldl
      (formsStep rnd) (st, t) with
  | (st1, t1) =>
      (List.range (collectDesc isInputEl t1).length).foldl (inputStep rnd) (st1, t1)

def isAnchor (n : Node) : Bool := n.tag = "a"

/-- Matches `i.external, .fa-external-link, .icon-external`. -/
def isExtIcon (n : Node) : Bool :=
  (n.tag = "i" && hasClass n "external") || hasClass n "fa-external-link" ||
    hasClass n "icon-external"

/-- External-link stage of one `enhanceLinks` iteration: `rel` hardening
and the `(external link)` label. -/
def linkExt (t : Node) (i : Nat) (a0 : Node) : Node :=
  let ta :=
    if truthy (attr a0 "rel") then t
    else setOnNth isAnchor i (fun a => setA a "rel" "noopener noreferrer") t
  match nthDesc isAnchor ta i with
  | none => ta
  | some a1 =>
    let hasExt := jsIncludes (jsToLower (textContent a1)) "external" ||
        (qsel isExtIcon a1).isSome
    if !hasExt && !(truthy (attr a1 "aria-label")) then
      setOnNth isAnchor i
        (fun a => setA a "aria-label" (textContent a1 ++ " (external link)")) ta
    else ta

/-- Fragment-link stage: focusable target and `Jump to` label. -/
def linkFrag (t1 : Node) (i : Nat) (href : String) : Node :=
  let tid := href.drop 1
  match getElemById t1 tid with
  | none => t1
  | some tgt =>
    let tb :=
      if hasA tgt.attrs "tabindex" then t1
      else updFirst (fun n => attr n "id" = some tid)
        (onAttrs (fun a => setA a "tabindex" "-1")) t1
    match nthDesc isAnchor tb i with
    | none => tb
    | some a2 =>
      if !(truthy (attr a2 "aria-label")) then
        setOnNth isAnchor i
          (fun a => setA a "aria-label" ("Jump to " ++ textContent a2)) tb
      else tb

/-- Accessible-text fallback stage: image alt or warning on empty links. -/
def linkFallback (t2 : Node) (i : Nat) : Node :=
  match nthDesc isAnchor t2 i with
  | none => t2
  | some a3 =>
    if jsTrim (textContent a3) = "" && !(hasA a3.attrs "aria-label") then
      match qsel (tagIs "img") a3 with
      | some img =>
          if truthy (attr img "alt") then
            setOnNth isAnchor i
              (fun a => setA a "aria-label" ((attr img "alt").getD "")) t2
          else
            setOnNth isAnchor i (warnAttrs "Link has no accessible text") t2
      | none =>
          setOnNth isAnchor i (warnAttrs "Link has no accessible text") t2
    else t2

/-- One iteration of the `enhanceLinks` loop, on the `i`-th anchor of the
current tree (mutations made for earlier anchors are visible). -/
def linkStep (t : Node) (i : Nat) : Node :=
  match nthDesc isAnchor t i with
  | none => t
  | some a0 =>
    match attr a0 "href" with
    | none => t
    | some href =>
      if href = "" then t
      else
        let t1 :=
          if strStarts href "http://" || strStarts href "https://" then
            linkExt t i a0
          else t
        let t2 := if strStarts href "#" then linkFrag t1 i href else t1
        linkFallback t2 i

/-- `enhanceLinks`: the static anchor list is fixed up-front; each anchor is
then processed against the current tree. -/
def enhanceLinks (t : Node) : Node :=
  (List.range (collectDesc isAnchor t).length).foldl linkStep t

mutual
/-- Code elements below a node, not descending into nested `pre` (those
belong to the inner `pre` via `closest`). -/
def codesUnderN : Node → List Node
  | .text _ => []
  | .elem tg a ch =>
      (if tg = "code" then [Node.elem tg a ch] else []) ++
        (if tg = "pre" then [] else codesUnderL ch)
def codesUnderL : List Node → List Node
  | [] => []
  | n :: ns => codesUnderN n ++ codesUnderL ns
end

/-- Language parsed from a `language-*` class, defaulting to "code". -/
def langOfCode (c : Node) : String :=
  match (classList c).find? (fun cl => strStarts cl "language-") with
  | some cl => String.mk (cl.toList.drop 9)
  | none => "code"

/-- `enhanceCodeBlocks`: each `pre` enclosing a `code` (its `closest` pre)
becomes a focusable labelled region; with several codes the last one's
language wins, matching the source's per-code `setAttribute` loop. -/
def codeFix (tg : String) (a : Attrs) (ch : List Node) : Attrs :=
  if tg = "pre" then
    match (codesUnderL ch).getLast? with
    | some c =>
        setA (setA (setA a "tabindex" "0") "role" "region") "aria-label"
          ("Code example in " ++ langOfCode c)
    | none => a
  else a

def enhanceCodeBlocks (t : Node) : Node := forEachElem codeFix t

def isSkipAnchor (n : Node) : Bool :=
  n.tag = "a" && (attr n "href" = some "#main" ||
    attr n "href" = some "#main-content" || attr n "href" = some "#content")

def skipLinkNode : Node :=
  .elem "a" [("href", "#main-content"), ("class", "skip-link")]
    [.text "Skip to main content"]

/-- `addSkipNavigation`: prepend the skip link to `body` when no anchor
already targets `#main`, `#main-content` or `#content`. -/
def addSkipNavigation (t : Node) : Node :=
  if (qsel (tagIs "body") t).isSome && !(qsel isSkipAnchor t).isSome then
    updFirst (tagIs "body")
      (fun b => .elem b.tag b.attrs (skipLinkNode :: b.children)) t
  else t

/-- `enhanceWithAria`: the fixed sequence of sub-passes; `rnd` supplies the
`Math.random()`-generated id fragments in draw order. -/
def enhanceWithAria (rnd : Nat → String) (t : Node) (fm : Frontmatter) : Node :=
  let t1 := if truthy fm.language then
      ensureHtmlLangAttribute t (fm.language.getD "") else t
  let t2 := ensureDocumentTitle t1 fm.title
  let t3 := addDocumentLandmarks t2
  let t4 := enhanceHeadings t3
  let t5 := enhanceLinks t4
  match enhanceTables rnd 0 t5 with
  | (st6, t6) =>
    match enhanceForms rnd st6 t6 with
    | (_, t7) => addSkipNavigation (enhanceCodeBlocks t7)

/-- The Enhancer pipeline up to (but excluding) skip-navigation; used to
factor `enhanceWithAria` for the preservation proofs. -/
def enhancePre (rnd : Nat → String) (t : Node) (fm : Frontmatter) : Node :=
  let t1 := if truthy fm.language then
      ensureHtmlLangAttribute t (fm.language.getD "") else t
  let t2 := ensureDocumentTitle t1 fm.title
  let t3 := addDocumentLandmarks t2
  let t4 := enhanceHeadings t3
  let t5 := enhanceLinks t4
  let r6 := enhanceTables rnd 0 t5
  let r7 := enhanceForms rnd r6.1 r6.2
  enhanceCodeBlocks r7.2

/-! ## Auditor (src/src/accessibility/checker.js) -/

/-- Heading-hierarchy issues. -/
inductive HIssue where
  | noHeadings
  | lacksH1
  | notStartH1 (el : Node)
  | skip (prev curr : Nat) (el : Node)
deriving Repr, DecidableEq

/-- The skipped-level loop: `previousLevel` starts at 0; the first heading
must be `h1`; a level exceeding the previous one by more than 1 is a skip. -/
def hierLoop : Nat → List Node → List HIssue
  | _, [] => []
  | prev, h :: rest =>
      let curr := headingLevel h.tag
      (if prev = 0 && curr ≠ 1 then [HIssue.notStartH1 h] else []) ++
        (if curr > prev + 1 then [HIssue.skip prev curr h] else []) ++
        hierLoop curr rest

/-- `checkHeadingHierarchy`. -/
def checkHeadingHierarchy (doc : Node) : List HIssue :=
  let headings := collectDesc isHeading doc
  if headings.isEmpty then [HIssue.noHeadings]
  else
    (if (qsel (tagIs "h1") doc).isSome then [] else [HIssue.lacksH1]) ++
      hierLoop 0 headings

/-- The heading levels of a document in document order. -/
def headingLevels (doc : Node) : List Nat :=
  (collectDesc isHeading doc).map (fun n => headingLevel n.tag)

/-- Screen-reader issues. -/
inductive SRIssue where
  | missingAlt (el : Node)
  | emptyAltNonDecorative (el : Node)
  | redundantAltPhrase (el : Node)
  | hiddenInteractive (el : Node)
  | duplicateId (i : String) (el : Node)
  | danglingLabelledby (i : String) (el : Node)
deriving Repr, DecidableEq

/-- The per-image alt checks, with the image's figure-ancestor flag.  The
empty-alt branch transcribes the source condition
`!img.classList.contains('decorative') && !img.closest('figure') &&
!img.getAttribute('aria-hidden') === 'true'`, whose last conjunct compares
the boolean `!getAttribute(...)` against the string `'true'`. -/
def imgAltIssue (img : Node) (inFigure : Bool) : Option SRIssue :=
  if !(hasA img.attrs "alt") then some (.missingAlt img)
  else
    let alt := (attr img "alt").getD ""
    if jsTrim alt = "" then
      if !(hasClass img "decorative") && !inFigure &&
          jsEqBoolStr (!(truthy (attr img "aria-hidden"))) "true" then
        some (.emptyAltNonDecorative img)
      else none
    else if jsIncludes (jsToLower alt) "image of" ||
        jsIncludes (jsToLower alt) "picture of" then
      some (.redundantAltPhrase img)
    else none

/-- `a[aria-hidden="true"], button[aria-hidden="true"],
input[aria-hidden="true"]`. -/
def isHiddenInteractive (n : Node) : Bool :=
  (n.tag = "a" || n.tag = "button" || n.tag = "input") &&
    attr n "aria-hidden" = some "true"

/-- Duplicate-id scan over all elements carrying an `id` attribute, in
document order; the source tracks seen ids in an object used as a set. -/
def dupIdLoop : List String → List Node → List SRIssue
  | _, [] => []
  | seen, n :: ns =>
      let i := (attr n "id").getD ""
      if seen.contains i then SRIssue.duplicateId i n :: dupIdLoop seen ns
      else dupIdLoop (i :: seen) ns

/-- Dangling `aria-labelledby` references of one element (space-separated
value; each id is looked up with `getElementById`). -/
def labelledbyIssues (doc : Node) (n : Node) : List SRIssue :=
  (((attr n "aria-labelledby").getD "").splitOn " ").filterMap
    (fun i =>
      if (getElemById doc i).isNone then some (SRIssue.danglingLabelledby i n)
      else none)

/-- `checkScreenReaderAnnouncements`: image alt checks, hidden interactive
elements, duplicate ids, dangling labelledby references, concatenated in
source order. -/
def checkScreenReaderAnnouncements (doc : Node) : List SRIssue :=
  ((collectAnc (fun n => n.tag = "img") (tagIs "figure") false doc).filterMap
      (fun p => imgAltIssue p.1 p.2)) ++
    ((collectDesc isHiddenInteractive doc).map SRIssue.hiddenInteractive) ++
    dupIdLoop [] (collectDesc (fun n => hasA n.attrs "id") doc) ++
    ((collectDesc (fun n => hasA n.attrs "aria-labelledby") doc).map
        (labelledbyIssues doc)).flatten

/-! ### Color parsing and WCAG contrast -/

/-- One-or-more decimal digits at the head. -/
def digits1 (cs : List Char) : Option (List Char × List Char) :=
  let ds := cs.takeWhile Char.isDigit
  if ds.isEmpty then none else some (ds, cs.drop ds.length)

/-- Match `(\d+),\s*(\d+),\s*(\d+)` at this position (the pattern contains
no backtracking opportunities, so greedy matching is exact). -/
def matchRGBAt (cs : List Char) : Option (Nat × Nat × Nat) :=
  (digits1 cs).bind fun p1 =>
    match p1.2 with
    | ',' :: r2 =>
        (digits1 (r2.dropWhile jsIsSpace)).bind fun p2 =>
          match p2.2 with
          | ',' :: r5 =>
              (digits1 (r5.dropWhile jsIsSpace)).map fun p3 =>
                (natOfDigits p1.1, natOfDigits p2.1, natOfDigits p3.1)
          | _ => none
    | _ => none

/-- Leftmost regex match in the string. -/
def searchRGB : List Char → Option (Nat × Nat × Nat)
  | [] => none
  | c :: cs =>
      match matchRGBAt (c :: cs) with
      | some v => some v
      | none => searchRGB cs

/-- Hex digit value, as accepted by `parseInt(-, 16)`. -/
def hexVal (c : Char) : Option Nat :=
  if c.isDigit then some (c.toNat - 48)
  else if 'a' ≤ c && c ≤ 'f' then some (c.toNat - 87)
  else if 'A' ≤ c && c ≤ 'F' then some (c.toNat - 55)
  else none

/-- `parseInt(s, 16)` on a short slice: value of the leading hex-digit run,
`none` (NaN) if it is empty.  A NaN component makes the source's ratio NaN,
and every comparison against NaN is false, so no issue is emitted — exactly
the effect of the `none` branch below. -/
def jsParseHexRun (cs : List Char) : Option Nat :=
  let ds := cs.takeWhile (fun c => (hexVal c).isSome)
  if ds.isEmpty then none
  else some (ds.foldl (fun a c => a * 16 + (hexVal c).getD 0) 0)

/-- `parseColor`: `rgb()/rgba()` via the regex, or 3/6-digit hex. -/
def parseColor (color : String) : Option (Nat × Nat × Nat) :=
  if color = "" then none
  else if strStarts color "rgb" then searchRGB color.toList
  else if strStarts color "#" then
    let hex0 := color.toList.drop 1
    let hex := if hex0.length = 3 then (hex0.map (fun c => [c, c])).flatten else hex0
    match jsParseHexRun (hex.take 2), jsParseHexRun ((hex.drop 2).take 2),
        jsParseHexRun ((hex.drop 4).take 2) with
    | some r, some g, some b => some (r, g, b)
    | _, _, _ => none
  else none

/-- Modelled from the spec: the WCAG channel linearization computed by the
external wcag-contrast dependency (not part of this repository) — low
channel values divided by 12.92, others gamma-adjusted with exponent 2.4. -/
noncomputable def linearize (c : Nat) : ℝ :=
  let s : ℝ := (c : ℝ) / 255
  if s ≤ 0.03928 then s / 12.92 else ((s + 0.055) / 1.055) ^ (2.4 : ℝ)

/-- Modelled from the spec: WCAG relative luminance. -/
noncomputable def luminance (rgb : Nat × Nat × Nat) : ℝ :=
  0.2126 * linearize rgb.1 + 0.7152 * linearize rgb.2.1 +
    0.0722 * linearize rgb.2.2

/-- Modelled from the spec: the WCAG contrast ratio
(lighter + 0.05)/(darker + 0.05). -/
noncomputable def contrastRatio (f b : Nat × Nat × Nat) : ℝ :=
  let l1 := luminance f + 0.05
  let l2 := luminance b + 0.05
  max l1 l2 / min l1 l2

/-- Resolved style of an element, as read off `getComputedStyle` (embedded
as an oracle mapping elements to styles). -/
structure CSSStyle where
  color : String := ""
  backgroundColor : String := ""
  fontSize : String := ""
  fontWeight : String := ""

/-- A contrast issue; the reported two-decimal ratio is carried as its
value in hundredths. -/
structure ContrastIssue where
  ratio100 : ℤ
  minimum : ℚ
  element : Node
  foreground : String
  background : String

/-- JavaScript `toFixed(2)` of a positive ratio, as hundredths. -/
noncomputable def toFixed2 (r : ℝ) : ℤ := ⌊r * 100 + 1 / 2⌋

/-- `p, h1..h6, li, td, th, label`. -/
def isTextElement (n : Node) : Bool :=
  n.tag = "p" || isHeadingTag n.tag || n.tag = "li" || n.tag = "td" ||
    n.tag = "th" || n.tag = "label"

/-- Large text: font-size ≥ 18, or ≥ 14 with numeric weight ≥ 700; a
`NaN` from `parseInt` fails every comparison. -/
def isLargeText (st : CSSStyle) : Bool :=
  let fs := jsParseInt st.fontSize
  let isBold := match jsParseInt st.fontWeight with
    | some w => w ≥ 700
    | none => false
  (match fs with | some n => n ≥ 18 | none => false) ||
    ((match fs with | some n => n ≥ 14 | none => false) && isBold)

def minimumRatio (st : CSSStyle) : ℚ := if isLargeText st then 3 else 4.5

/-- The ratio comparison at the end of the contrast loop body. -/
noncomputable def contrastDecide (st : CSSStyle) (el : Node)
    (fg bg : Nat × Nat × Nat) : Option ContrastIssue :=
  let ratio := contrastRatio fg bg
  if ratio < ((minimumRatio st : ℚ) : ℝ) then
    some ⟨toFixed2 ratio, minimumRatio st, el, st.color, st.backgroundColor⟩
  else none

/-- The per-element body of the contrast loop: skip falsy or unparseable
colors, otherwise compare the ratio against the applicable minimum. -/
noncomputable def contrastElemIssue (style : Node → CSSStyle) (el : Node) :
    Option ContrastIssue :=
  let st := style el
  if st.color = "" || st.backgroundColor = "" then none
  else
    match parseColor st.color, parseColor st.backgroundColor with
    | some fg, some bg => contrastDecide st el fg bg
    | _, _ => none

/-- `checkColorContrast` over the document's text-bearing elements. -/
noncomputable def checkColorContrast (style : Node → CSSStyle) (doc : Node) :
    List ContrastIssue :=
  (collectDesc isTextElement doc).filterMap (contrastElemIssue style)

/-! ### `checkAccessibility` control flow -/

/-- The issues of `checkAccessibility`, reduced to kind and message. -/
structure AuditIssue where
  kind : String
  message : String
deriving Repr, DecidableEq

/-- The configuration toggles consumed by `checkAccessibility`. -/
structure AuditConfig where
  checkWCAG : Bool := true
  checkHeadingHierarchy : Bool := true
  checkColorContrast : Bool := true
  validateHTML : Bool := true
  checkARIA : Bool := true
  checkKeyboardAccessibility : Bool := true
  checkScreenReaderAnnouncements : Bool := true

/-- Outcome of one rule check: its issue list, or the message of an
exception thrown inside it.  The checks are parameters of the control-flow
model: what each computes is irrelevant to how failures propagate. -/
abbrev CheckOutcome := Except String (List AuditIssue)

/-- `runAxeChecks` has its own try/catch: a failure of the external rule
engine becomes a single wcag-kind issue and never propagates. -/
def runAxeChecks (axe : CheckOutcome) : List AuditIssue :=
  match axe with
  | .ok l => l
  | .error e => [⟨"wcag", "Error running axe checks: " ++ e⟩]

/-- `validateHTML` likewise catches its own failures (html-kind issue). -/
def validateHTMLRun (v : CheckOutcome) : List AuditIssue :=
  match v with
  | .ok l => l
  | .error e => [⟨"html", "HTML validation failed: " ++ e⟩]

/-- Body of `checkAccessibility`'s outer `try`: the seven checks in source
order, each gated by its flag.  Only the axe and validation steps recover
locally; an exception in any other check propagates out of the `try`. -/
def checkAccessibilityCore (cfg : AuditConfig)
    (axe headings contrast validation aria keyboard sr : CheckOutcome) :
    Except String (List AuditIssue) :=
  let i1 := if cfg.checkWCAG then runAxeChecks axe else []
  (if cfg.checkHeadingHierarchy then headings else .ok []).bind fun i2 =>
  (if cfg.checkColorContrast then contrast else .ok []).bind fun i3 =>
  let i4 := if cfg.validateHTML then validateHTMLRun validation else []
  (if cfg.checkARIA then aria else .ok []).bind fun i5 =>
  (if cfg.checkKeyboardAccessibility then keyboard else .ok []).bind fun i6 =>
  (if cfg.checkScreenReaderAnnouncements then sr else .ok []).bind fun i7 =>
  .ok (i1 ++ i2 ++ i3 ++ i4 ++ i5 ++ i6 ++ i7)

/-- `checkAccessibility`: the outer catch converts an uncaught exception
into a single error-kind issue, discarding everything collected so far. -/
def checkAccessibility (cfg : AuditConfig)
    (axe headings contrast validation aria keyboard sr : CheckOutcome) :
    List AuditIssue :=
  match checkAccessibilityCore cfg axe headings contrast validation aria keyboard sr with
  | .ok l => l
  | .error e => [⟨"error", "Accessibility check failed: " ++ e⟩]

/-! ## Concrete example documents -/

/-- A deterministic stand-in for the `Math.random()` id oracle. -/
def rndDemo : Nat → String := fun n => toString n

/-- `#document` root wrapper, as produced by the HTML parser. -/
def docOf (ns : List Node) : Node := .elem "#document" [] ns

/-- A body holding a single paragraph. -/
def demoDoc : Node := docOf [.elem "body" [] [.elem "p" [] [.text "Hi"]]]

/-- `demoDoc` after one Enhancer run: skip link prepended, contents wrapped
in a `main` landmark. -/
def demoOnce : Node :=
  docOf [.elem "body" []
    [.elem "a" [("href", "#main-content"), ("class", "skip-link")]
       [.text "Skip to main content"],
     .elem "main" [("role", "main"), ("id", "main-content")]
       [.elem "p" [] [.text "Hi"]]]]

/-- `demoDoc` after two Enhancer runs: the skip link has gained a
`Jump to` label and the main landmark a `tabindex`. -/
def demoTwice : Node :=
  docOf [.elem "body" []
    [.elem "a" [("href", "#main-content"), ("class", "skip-link"),
        ("aria-label", "Jump to Skip to main content")]
       [.text "Skip to main content"],
     .elem "main" [("role", "main"), ("id", "main-content"), ("tabindex", "-1")]
       [.elem "p" [] [.text "Hi"]]]]

/-- A non-decorative image with empty alt: no `decorative` class, not in a
figure, no `aria-hidden` — the configuration the spec says must be
flagged. -/
def c1Doc : Node :=
  docOf [.elem "body" [] [.elem "img" [("src", "x.png"), ("alt", "")] []]]

/-- Recognizer for the empty-alt warning. -/
def isEmptyAltIssue : SRIssue → Bool
  | .emptyAltNonDecorative _ => true
  | _ => false

/-- The text element used in the contrast scenarios. -/
def pElem : Node := .elem "p" [] [.text "T"]

/-- A body holding one paragraph, for the contrast scenarios. -/
def docP : Node := docOf [.elem "body" [] [pElem]]

/-- Resolved styles: black text on white, 16px normal weight. -/
def styleBW : Node → CSSStyle := fun _ =>
  ⟨"rgb(0, 0, 0)", "rgb(255, 255, 255)", "16px", "normal"⟩

/-- Resolved styles: gray (150) text on white, 16px normal weight. -/
def styleGray : Node → CSSStyle := fun _ =>
  ⟨"rgb(150, 150, 150)", "rgb(255, 255, 255)", "16px", "normal"⟩

/-- Two headers and two footers: only the first of each is reached by the
source's `querySelector`. -/
def c5Doc : Node :=
  docOf [.elem "body" []
    [.elem "header" [] [], .elem "header" [] [],
     .elem "footer" [] [], .elem "footer" [] []]]

/-- A body whose `main` landmark already carries a custom id. -/
def c4Doc : Node :=
  docOf [.elem "body" [] [.elem "main" [("id", "custom")] [.text "Hi"]]]

/-! ## Counting and invariance vocabulary for the preservation lemmas -/

/-- Number of matching descendants. -/
def cnt (q : Node → Bool) (t : Node) : Nat := (collectDesc q t).length

/-- Number of matches in a sibling forest. -/
def cntL (q : Node → Bool) (l : List Node) : Nat := (collectList q l).length

/-- Number of matches in a subtree, the node itself included. -/
def wcount (q : Node → Bool) (n : Node) : Nat :=
  (if q n then 1 else 0) + cnt q n

/-- An element predicate that ignores text nodes and children and is
unaffected by writes to attributes other than `href` — every predicate the
skip-link analysis tracks is of this kind. -/
structure QInv (q : Node → Bool) : Prop where
  text : ∀ s, q (.text s) = false
  chIndep : ∀ tg a ch ch2, q (.elem tg a ch) = q (.elem tg a ch2)
  setAttr : ∀ tg a ch k v, ¬ k = "href" →
    q (.elem tg (setA a k v) ch) = q (.elem tg a ch)

mutual
/-- Every `title` element holds only text children (true of any tree
produced by an HTML parser); the pathological alternative would let the
title pass delete elements. -/
def titlesOK : Node → Bool
  | .text _ => true
  | .elem tg _ ch =>
      (if tg = "title" then ch.all (fun c => !c.isElem) else true) &&
        titlesOKList ch
def titlesOKList : List Node → Bool
  | [] => true
  | n :: ns => titlesOK n && titlesOKList ns
end

/-! ## Basic lemmas about attributes and queries -/

theorem hasA_eq_getA (a : Attrs) (k : String) : hasA a k = (getA a k).isSome := by
  simp [hasA, getA]

theorem getA_cons_pos {p : String × String} {ps : Attrs} {k2 : String}
    (h : p.1 = k2) : getA (p :: ps) k2 = some p.2 := by
  simp [getA, List.find?_cons_of_pos, h]

theorem getA_cons_neg {p : String × String} {ps : Attrs} {k2 : String}
    (h : ¬ p.1 = k2) : getA (p :: ps) k2 = getA ps k2 := by
  simp [getA, List.find?_cons, h]

theorem hasA_cons {p : String × String} {ps : Attrs} {k2 : String} :
    hasA (p :: ps) k2 = (p.1 = k2 || hasA ps k2) := by
  by_cases h : p.1 = k2
  · simp [hasA, List.find?_cons, h]
  · simp [hasA, List.find?_cons, h]

theorem getA_append (a b : Attrs) (k2 : String) :
    getA (a ++ b) k2 =
      (match getA a k2 with
       | some v => some v
       | none => getA b k2) := by
  induction a with
  | nil => simp [getA]
  | cons p ps ih =>
    by_cases h : p.1 = k2
    · rw [List.cons_append, getA_cons_pos h, getA_cons_pos h]
    · rw [List.cons_append, getA_cons_neg h, getA_cons_neg h, ih]

theorem getA_map_set (k v k2 : String) : ∀ a : Attrs,
    getA (a.map (fun p => if p.1 = k then (k, v) else p)) k2 =
      if k2 = k then (if hasA a k then some v else none) else getA a k2 := by
  intro a
  induction a with
  | nil => by_cases h : k2 = k <;> simp [getA, hasA, h]
  | cons p ps ih =>
    rw [List.map_cons]
    by_cases hp : p.1 = k
    · rw [if_pos hp]
      by_cases hk : k2 = k
      · subst hk
        rw [getA_cons_pos rfl, if_pos rfl, hasA_cons]
        simp [hp]
      · rw [getA_cons_neg (fun h => hk h.symm), ih, if_neg hk, if_neg hk,
          getA_cons_neg (fun h => hk (hp ▸ h).symm)]
    · rw [if_neg hp]
      by_cases hq : p.1 = k2
      · have hk : ¬ k2 = k := fun h => hp (hq.trans h)
        rw [getA_cons_pos hq, if_neg hk, getA_cons_pos hq]
      · rw [getA_cons_neg hq, ih]
        by_cases hk : k2 = k
        · subst hk
          rw [if_pos rfl, if_pos rfl, hasA_cons]
          simp [hp]
        · rw [if_neg hk, if_neg hk, getA_cons_neg hq]

theorem getA_setA (a : Attrs) (k v k2 : String) :
    getA (setA a k v) k2 = if k2 = k then some v else getA a k2 := by
  unfold setA
  by_cases h : hasA a k
  · rw [if_pos h, getA_map_set]
    by_cases hk : k2 = k <;> simp [hk, h]
  · rw [if_neg h, getA_append]
    by_cases hk : k2 = k
    · subst hk
      have hnone : getA a k2 = none := by
        rw [hasA_eq_getA] at h
        exact Option.not_isSome_iff_eq_none.mp (by simpa using h)
      rw [hnone, if_pos rfl]
      exact getA_cons_pos rfl
    · rw [if_neg hk]
      cases hg : getA a k2 with
      | some w => rfl
      | none =>
        simp only []
        rw [getA_cons_neg (fun h2 => hk h2.symm)]
        rfl

theorem hasA_setA (a : Attrs) (k v k2 : String) :
    hasA (setA a k v) k2 = (k2 = k || hasA a k2) := by
  rw [hasA_eq_getA, hasA_eq_getA, getA_setA]
  by_cases hk : k2 = k <;> simp [hk]

theorem qsel_eq_head (p : Node → Bool) :
    (∀ t, qsel p t = (collectDesc p t).head?) ∧
      (∀ l, qselList p l = (collectList p l).head?) := by
  constructor
  · intro t
    induction t using Node.indOn with
    | ht s => simp [qsel, collectDesc]
    | he tg a ch ih =>
      simp only [qsel, collectDesc]
      induction ch with
      | nil => simp [qselList, collectList]
      | cons n ns ihl =>
        simp only [qselList, collectList]
        by_cases hp : p n
        · simp [hp]
        · simp only [hp, if_false, Bool.false_eq_true]
          rw [ih n (by simp)]
          cases hh : (collectDesc p n).head? with
          | some m => simp [hh]
          | none =>
            have : collectDesc p n = [] := by
              cases hcd : collectDesc p n
              · rfl
              · rw [hcd] at hh; simp at hh
            simp [this, hh, ihl (fun m hm => ih m (by simp [hm]))]
  · intro l
    induction l with
    | nil => simp [qselList, collectList]
    | cons n ns ihl =>
      simp only [qselList, collectList]
      by_cases hp : p n
      · simp [hp]
      · simp only [hp, if_false, Bool.false_eq_true]
        have hn : qsel p n = (collectDesc p n).head? := (by
          intro t
          induction t using Node.indOn with
          | ht s => simp [qsel, collectDesc]
          | he tg a ch ih =>
            simp only [qsel, collectDesc]
            induction ch with
            | nil => simp [qselList, collectList]
            | cons m ms ihm =>
              simp only [qselList, collectList]
              by_cases hq : p m
              · simp [hq]
              · simp only [hq, if_false, Bool.false_eq_true]
                rw [ih m (by simp)]
                cases hh : (collectDesc p m).head? with
                | some x => simp [hh]
                | none =>
                  have : collectDesc p m = [] := by
                    cases hcd : collectDesc p m
                    · rfl
                    · rw [hcd] at hh; simp at hh
                  simp [this, hh, ihm (fun x hx => ih x (by simp [hx]))] :
          ∀ t, qsel p t = (collectDesc p t).head?) n
        rw [hn]
        cases hh : (collectDesc p n).head? with
        | some m => simp [hh]
        | none =>
          have : collectDesc p n = [] := by
            cases hcd : collectDesc p n
            · rfl
            · rw [hcd] at hh; simp at hh
          simp [this, hh, ihl]

/-! ## C2: isolation of the Auditor rule checks -/

/-- C2 counterexample: with every flag on, an exception inside the heading
check is caught only at the Auditor's top level; the single error Issue
replaces the whole list and the WCAG issue collected before it is gone, so
the checks are not independently recoverable as claimed. -/
theorem C2_counterexample :
    checkAccessibility {} (.ok [⟨"wcag", "w1"⟩]) (.error "boom")
        (.ok []) (.ok []) (.ok []) (.ok []) (.ok [⟨"screen-reader", "s1"⟩]) =
      [⟨"error", "Accessibility check failed: boom"⟩] ∧
    (⟨"wcag", "w1"⟩ : AuditIssue) ∉
      checkAccessibility {} (.ok [⟨"wcag", "w1"⟩]) (.error "boom")
        (.ok []) (.ok []) (.ok []) (.ok []) (.ok [⟨"screen-reader", "s1"⟩]) := by
  exact ⟨rfl, by decide⟩

/-- C2 (amended): only the WCAG-engine and HTML-validation checks recover at
their own boundary (their failures become a single wcag/html issue and the
remaining checks are unaffected); an exception in any other enabled check —
heading hierarchy, color contrast, ARIA, keyboard, or screen reader — reaches
the outer catch, which returns exactly one generic error Issue, discarding
every issue collected by the earlier checks (and the later checks' outcomes
are irrelevant: the result is the same for all of them). -/
theorem C2_amended :
    (∀ (cfg : AuditConfig) (h c v a k s : CheckOutcome) (e : String),
        checkAccessibility cfg (.error e) h c v a k s =
          checkAccessibility cfg
            (.ok [⟨"wcag", "Error running axe checks: " ++ e⟩]) h c v a k s) ∧
    (∀ (cfg : AuditConfig) (ax h c a k s : CheckOutcome) (e : String),
        checkAccessibility cfg ax h c (.error e) a k s =
          checkAccessibility cfg ax h c
            (.ok [⟨"html", "HTML validation failed: " ++ e⟩]) a k s) ∧
    (∀ (cfg : AuditConfig) (ax c v a k s : CheckOutcome) (e : String),
        cfg.checkHeadingHierarchy = true →
        checkAccessibility cfg ax (.error e) c v a k s =
          [⟨"error", "Accessibility check failed: " ++ e⟩]) ∧
    (∀ (cfg : AuditConfig) (ax : CheckOutcome) (lh : List AuditIssue)
        (v a k s : CheckOutcome) (e : String),
        cfg.checkColorContrast = true →
        checkAccessibility cfg ax (.ok lh) (.error e) v a k s =
          [⟨"error", "Accessibility check failed: " ++ e⟩]) ∧
    (∀ (cfg : AuditConfig) (ax : CheckOutcome) (lh lc : List AuditIssue)
        (v k s : CheckOutcome) (e : String),
        cfg.checkARIA = true →
        checkAccessibility cfg ax (.ok lh) (.ok lc) v (.error e) k s =
          [⟨"error", "Accessibility check failed: " ++ e⟩]) ∧
    (∀ (cfg : AuditConfig) (ax : CheckOutcome) (lh lc la : List AuditIssue)
        (v s : CheckOutcome) (e : String),
        cfg.checkKeyboardAccessibility = true →
        checkAccessibility cfg ax (.ok lh) (.ok lc) v (.ok la) (.error e) s =
          [⟨"error", "Accessibility check failed: " ++ e⟩]) ∧
    (∀ (cfg : AuditConfig) (ax : CheckOutcome) (lh lc la lk : List AuditIssue)
        (v : CheckOutcome) (e : String),
        cfg.checkScreenReaderAnnouncements = true →
        checkAccessibility cfg ax (.ok lh) (.ok lc) v (.ok la) (.ok lk)
            (.error e) =
          [⟨"error", "Accessibility check failed: " ++ e⟩]) := by
  refine ⟨?_, ?_, ?_, ?_, ?_, ?_, ?_⟩
  · intro cfg h c v a k s e
    simp [checkAccessibility, checkAccessibilityCore, runAxeChecks]
  · intro cfg ax h c a k s e
    simp [checkAccessibility, checkAccessibilityCore, validateHTMLRun]
  · intro cfg ax c v a k s e hflag
    simp [checkAccessibility, checkAccessibilityCore, hflag, Except.bind]
  · intro cfg ax lh v a k s e hflag
    cases h1 : cfg.checkHeadingHierarchy <;>
      simp [checkAccessibility, checkAccessibilityCore, hflag, h1, Except.bind]
  · intro cfg ax lh lc v k s e hflag
    cases h1 : cfg.checkHeadingHierarchy <;>
      cases h2 : cfg.checkColorContrast <;>
        simp [checkAccessibility, checkAccessibilityCore, hflag, h1, h2,
          Except.bind]
  · intro cfg ax lh lc la v s e hflag
    cases h1 : cfg.checkHeadingHierarchy <;>
      cases h2 : cfg.checkColorContrast <;>
        cases h3 : cfg.checkARIA <;>
          simp [checkAccessibility, checkAccessibilityCore, hflag, h1, h2, h3,
            Except.bind]
  · intro cfg ax lh lc la lk v e hflag
    cases h1 : cfg.checkHeadingHierarchy <;>
      cases h2 : cfg.checkColorContrast <;>
        cases h3 : cfg.checkARIA <;>
          cases h4 : cfg.checkKeyboardAccessibility <;>
            simp [checkAccessibility, checkAccessibilityCore, hflag, h1, h2,
              h3, h4, Except.bind]

/-- Witness for C2's amended theorem: each of the five non-locally-caught
checks failing at a concrete configuration, with earlier issues discarded. -/
theorem C2_amended_witness :
    checkAccessibility {} (.ok []) (.error "x") (.ok []) (.ok []) (.ok [])
        (.ok []) (.ok []) = [⟨"error", "Accessibility check failed: x"⟩] ∧
    checkAccessibility {} (.ok []) (.ok [⟨"heading", "h1"⟩]) (.error "x")
        (.ok []) (.ok []) (.ok []) (.ok []) =
      [⟨"error", "Accessibility check failed: x"⟩] ∧
    checkAccessibility {} (.ok []) (.ok []) (.ok []) (.ok []) (.error "x")
        (.ok []) (.ok []) = [⟨"error", "Accessibility check failed: x"⟩] ∧
    checkAccessibility {} (.ok []) (.ok []) (.ok []) (.ok []) (.ok [])
        (.error "x") (.ok []) = [⟨"error", "Accessibility check failed: x"⟩] ∧
    checkAccessibility {} (.ok []) (.ok []) (.ok []) (.ok []) (.ok [])
        (.ok []) (.error "x") = [⟨"error", "Accessibility check failed: x"⟩] :=
  ⟨C2_amended.2.2.1 {} (.ok []) (.ok []) (.ok []) (.ok []) (.ok []) (.ok [])
      "x" rfl,
   C2_amended.2.2.2.1 {} (.ok []) [⟨"heading", "h1"⟩] (.ok []) (.ok [])
      (.ok []) (.ok []) "x" rfl,
   C2_amended.2.2.2.2.1 {} (.ok []) [] [] (.ok []) (.ok []) (.ok []) "x" rfl,
   C2_amended.2.2.2.2.2.1 {} (.ok []) [] [] [] (.ok []) (.ok []) "x" rfl,
   C2_amended.2.2.2.2.2.2 {} (.ok []) [] [] [] [] (.ok []) "x" rfl⟩

/-! ## C3: the Enhancer is not idempotent -/

/-! ## C3: the Enhancer is not idempotent -/

set_option maxHeartbeats 1600000

/-- First Enhancer run on the demo body. -/
theorem demo_once_eq : enhanceWithAria rndDemo demoDoc {} = demoOnce := by decide

/-- Second Enhancer run: the skip link gains an aria-label and the main
landmark a tabindex. -/
theorem demo_twice_eq : enhanceWithAria rndDemo demoOnce {} = demoTwice := by
  decide

/-- Third Enhancer run: a fixed point is reached. -/
theorem demo_thrice_eq : enhanceWithAria rndDemo demoTwice {} = demoTwice := by
  decide

set_option maxHeartbeats 200000

/-- C3 counterexample: on a body holding one paragraph, running the Enhancer
twice does not produce the same tree as running it once. -/
theorem C3_counterexample :
    enhanceWithAria rndDemo (enhanceWithAria rndDemo demoDoc {}) {} ≠
      enhanceWithAria rndDemo demoDoc {} := by
  rw [demo_once_eq, demo_twice_eq]
  decide

/-- C3 (amended): the Enhancer is not idempotent.  On a body holding one
paragraph the first run wraps the content in a labelled `main` landmark and
prepends the skip link; the second run leaves structure, ids, landmark roles
and skip-link presence unchanged but gives the skip link the aria-label
`Jump to Skip to main content` and the main landmark `tabindex="-1"` (the
skip link now targets an existing id, so the fragment-link pass fires on
it); a third run changes nothing further. -/
theorem C3_amended :
    enhanceWithAria rndDemo demoDoc {} = demoOnce ∧
    enhanceWithAria rndDemo demoOnce {} = demoTwice ∧
    enhanceWithAria rndDemo demoTwice {} = demoTwice :=
  ⟨demo_once_eq, demo_twice_eq, demo_thrice_eq⟩

/-! ## C1: the empty-alt screen-reader warning is unreachable -/

theorem imgAltIssue_not_emptyAlt (i : Node) (f : Bool) (x : SRIssue)
    (h : imgAltIssue i f = some x) : isEmptyAltIssue x = false := by
  unfold imgAltIssue at h
  simp only [jsEqBoolStr, Bool.and_false] at h
  split at h
  · simp only [Option.some.injEq] at h
    subst h
    rfl
  · split at h
    · simp at h
    · split at h
      · simp only [Option.some.injEq] at h
        subst h
        rfl
      · simp at h

theorem dupIdLoop_shape : ∀ (seen : List String) (ns : List Node) (x : SRIssue),
    x ∈ dupIdLoop seen ns → isEmptyAltIssue x = false := by
  intro seen ns
  induction ns generalizing seen with
  | nil => intro x h; simp [dupIdLoop] at h
  | cons n ms ih =>
    intro x h
    simp only [dupIdLoop] at h
    by_cases hc : (seen.contains ((attr n "id").getD "")) = true
    · rw [if_pos hc] at h
      rcases List.mem_cons.mp h with h2 | h2
      · subst h2
        rfl
      · exact ih _ x h2
    · rw [if_neg hc] at h
      exact ih _ x h

/-- C1: the source's condition for the `Non-decorative image has empty alt
text` issue compares the boolean `!img.getAttribute('aria-hidden')` with the
string `'true'`, which is always false, so the issue is never emitted — not
for the concrete non-decorative empty-alt image (first conjunct: the whole
check returns no issue at all for it), and not for any document
whatsoever (second conjunct). -/
theorem C1_code_bug :
    checkScreenReaderAnnouncements c1Doc = [] ∧
    ∀ d : Node,
      (checkScreenReaderAnnouncements d).filter isEmptyAltIssue = [] := by
  constructor
  · decide
  · intro d
    rw [List.filter_eq_nil_iff]
    intro x hx
    unfold checkScreenReaderAnnouncements at hx
    simp only [List.mem_append] at hx
    rcases hx with ((hx | hx) | hx) | hx
    · rcases List.mem_filterMap.mp hx with ⟨p, hp1, hp⟩
      simp [imgAltIssue_not_emptyAlt p.1 p.2 x hp]
    · rcases List.mem_map.mp hx with ⟨n, hn, h⟩
      subst h
      simp [isEmptyAltIssue]
    · simp [dupIdLoop_shape _ _ x hx]
    · rcases List.mem_flatten.mp hx with ⟨l, hl, hxl⟩
      rcases List.mem_map.mp hl with ⟨n, hn, h⟩
      subst h
      unfold labelledbyIssues at hxl
      rcases List.mem_filterMap.mp hxl with ⟨i, hi1, hi⟩
      split at hi
      · simp only [Option.some.injEq] at hi
        subst hi
        simp [isEmptyAltIssue]
      · simp at hi

/-! ## C6, C10: heading hierarchy -/

theorem collectDesc_filter (p q : Node → Bool) (hpq : ∀ n, p n = true → q n = true) :
    ∀ t, collectDesc p t = (collectDesc q t).filter p := by
  intro t
  induction t using Node.indOn with
  | ht s => simp [collectDesc]
  | he tg a ch ih =>
    simp only [collectDesc]
    induction ch with
    | nil => simp [collectList]
    | cons n ns ihl =>
      simp only [collectList, List.filter_append]
      rw [ih n (by simp), ihl (fun m hm => ih m (by simp [hm]))]
      congr 1
      by_cases hp : p n
      · rw [if_pos hp, if_pos (hpq n hp)]
        simp [hp]
      · rw [if_neg hp]
        by_cases hq : q n
        · rw [if_pos hq]
          simp [hp]
        · rw [if_neg hq]
          simp

theorem mem_collectDesc (p : Node → Bool) :
    ∀ t x, x ∈ collectDesc p t → p x = true := by
  intro t
  induction t using Node.indOn with
  | ht s => intro x hx; simp [collectDesc] at hx
  | he tg a ch ih =>
    intro x hx
    simp only [collectDesc] at hx
    induction ch with
    | nil => simp [collectList] at hx
    | cons n ns ihl =>
      simp only [collectList, List.mem_append] at hx
      rcases hx with (hx | hx) | hx
      · rcases hb : p n with _ | _ <;> rw [hb] at hx <;> simp at hx
        subst hx
        exact hb
      · exact ih n (by simp) x hx
      · exact ihl (fun m hm => ih m (by simp [hm])) hx

theorem heading_tag_level (t : String) (h : isHeadingTag t = true) :
    (t = "h1" ↔ headingLevel t = 1) := by
  simp only [isHeadingTag, Bool.or_eq_true, decide_eq_true_eq] at h
  rcases h with ((((h | h) | h) | h) | h) | h <;> subst h <;> simp [headingLevel]

theorem hasH1_iff (d : Node) :
    (qsel (tagIs "h1") d).isSome = true ↔ 1 ∈ headingLevels d := by
  rw [(qsel_eq_head (tagIs "h1")).1 d]
  have hsome : ∀ l : List Node, (l.head?).isSome = true ↔ l ≠ [] := by
    intro l; cases l <;> simp
  rw [hsome]
  rw [collectDesc_filter (tagIs "h1") isHeading
    (fun n hp => by
      simp only [tagIs, decide_eq_true_eq] at hp
      simp [isHeading, hp, isHeadingTag])]
  rw [Ne, List.filter_eq_nil_iff]
  simp only [headingLevels, List.mem_map, not_forall]
  constructor
  · rintro ⟨m, hm, hp⟩
    simp only [tagIs, decide_eq_true_eq, not_not] at hp
    exact ⟨m, hm, by rw [hp]; rfl⟩
  · rintro ⟨m, hm, hlvl⟩
    have hh : isHeading m = true := mem_collectDesc isHeading d m hm
    have htag : m.tag = "h1" :=
      (heading_tag_level m.tag (by simpa [isHeading] using hh)).mpr hlvl
    exact ⟨m, hm, by simp [tagIs, htag]⟩

theorem hierLoop_skip_forward :
    ∀ (hs : List Node) (prev p c : Nat) (e : Node),
      HIssue.skip p c e ∈ hierLoop prev hs → p + 1 < c := by
  intro hs
  induction hs with
  | nil => intro prev p c e h; simp [hierLoop] at h
  | cons n ns ih =>
    intro prev p c e h
    simp only [hierLoop, List.mem_append] at h
    rcases h with (h | h) | h
    · split at h
      · simp at h
      · simp at h
    · split at h
      · simp only [List.mem_singleton] at h
        injection h with hp hc he2
        subst hp
        subst hc
        rename_i hguard
        simpa using hguard
      · simp at h
    · exact ih _ p c e h

theorem levels_three (d : Node) (x y z : Nat) (h : headingLevels d = [x, y, z]) :
    ∃ a b c2, collectDesc isHeading d = [a, b, c2] ∧ headingLevel a.tag = x ∧
      headingLevel b.tag = y ∧ headingLevel c2.tag = z := by
  have hlen : (collectDesc isHeading d).length = 3 := by
    have h2 := congrArg List.length h
    simpa [headingLevels] using h2
  rcases List.length_eq_three.mp hlen with ⟨a, b, c2, hl⟩
  refine ⟨a, b, c2, hl, ?_, ?_, ?_⟩ <;>
  · rw [headingLevels, hl] at h
    simp only [List.map_cons, List.map_nil, List.cons.injEq, and_true] at h
    tauto

/-- C6: the heading hierarchy check reports nothing on h1,h2,h3; exactly
the one h2→h4 skip on h1,h2,h4; and any skip issue it ever reports is for a
forward jump of more than one level — transitions to a lower or equal
level are never flagged. -/
theorem C6_heading_hierarchy :
    (∀ d : Node, headingLevels d = [1, 2, 3] → checkHeadingHierarchy d = []) ∧
    (∀ d : Node, headingLevels d = [1, 2, 4] →
      ∃ e, checkHeadingHierarchy d = [HIssue.skip 2 4 e]) ∧
    (∀ (d : Node) (p c : Nat) (e : Node),
      HIssue.skip p c e ∈ checkHeadingHierarchy d → p + 1 < c) := by
  refine ⟨?_, ?_, ?_⟩
  · intro d hd
    rcases levels_three d 1 2 3 hd with ⟨a, b, c2, hl, ha, hb, hc⟩
    unfold checkHeadingHierarchy
    rw [hl, if_neg (by simp),
      if_pos ((hasH1_iff d).mpr (by rw [hd]; simp))]
    simp [hierLoop, ha, hb, hc]
  · intro d hd
    rcases levels_three d 1 2 4 hd with ⟨a, b, c2, hl, ha, hb, hc⟩
    refine ⟨c2, ?_⟩
    unfold checkHeadingHierarchy
    rw [hl, if_neg (by simp),
      if_pos ((hasH1_iff d).mpr (by rw [hd]; simp))]
    simp [hierLoop, ha, hb, hc]
  · intro d p c e h
    simp only [checkHeadingHierarchy] at h
    by_cases hemp : (collectDesc isHeading d).isEmpty = true
    · rw [if_pos hemp] at h
      simp at h
    · rw [if_neg hemp] at h
      simp only [List.mem_append] at h
      rcases h with h | h
      · split at h <;> simp at h
      · exact hierLoop_skip_forward _ 0 p c e h

/-- Witness for C6 at the concrete three-heading documents. -/
theorem C6_witness :
    checkHeadingHierarchy (docOf [.elem "h1" [] [], .elem "h2" [] [],
        .elem "h3" [] []]) = [] ∧
    (∃ e, checkHeadingHierarchy (docOf [.elem "h1" [] [], .elem "h2" [] [],
        .elem "h4" [] []]) = [HIssue.skip 2 4 e]) ∧
    2 + 1 < 4 :=
  ⟨C6_heading_hierarchy.1 _ (by decide),
   C6_heading_hierarchy.2.1 _ (by decide),
   C6_heading_hierarchy.2.2 (docOf [.elem "h1" [] [], .elem "h2" [] [],
      .elem "h4" [] []]) 2 4 (.elem "h4" [] []) (by decide)⟩

/-- C10: when the first heading's level L is at least 2, the check emits
both the does-not-start-with-h1 issue and a `Heading level skipped from h0
to hL` issue, since the first heading is compared to initial level 0. -/
theorem C10_initial_skip :
    ∀ (d : Node) (L : Nat) (rest : List Nat),
      headingLevels d = L :: rest → 2 ≤ L →
      (∃ e, HIssue.notStartH1 e ∈ checkHeadingHierarchy d) ∧
      (∃ e, HIssue.skip 0 L e ∈ checkHeadingHierarchy d) := by
  intro d L rest hd hL
  rcases hlist : collectDesc isHeading d with _ | ⟨a, hs⟩
  · rw [headingLevels, hlist] at hd
    simp at hd
  · have ha : headingLevel a.tag = L := by
      rw [headingLevels, hlist] at hd
      injection hd
    have hloop : hierLoop 0 (a :: hs) =
        [HIssue.notStartH1 a] ++ ([HIssue.skip 0 L a] ++ hierLoop L hs) := by
      simp only [hierLoop, ha]
      rw [if_pos (by simp; omega), if_pos (by omega)]
      simp
    constructor
    · refine ⟨a, ?_⟩
      unfold checkHeadingHierarchy
      rw [hlist, if_neg (by simp)]
      simp [hloop]
    · refine ⟨a, ?_⟩
      unfold checkHeadingHierarchy
      rw [hlist, if_neg (by simp)]
      simp [hloop]

/-- Witness for C10 on a document whose only heading is an h3. -/
theorem C10_witness :
    (∃ e, HIssue.notStartH1 e ∈ checkHeadingHierarchy (docOf [.elem "h3" [] []])) ∧
    (∃ e, HIssue.skip 0 3 e ∈ checkHeadingHierarchy (docOf [.elem "h3" [] []])) :=
  C10_initial_skip (docOf [.elem "h3" [] []]) 3 [] (by decide) (by omega)

/-! ## C9: heading slug ids are a pure function of the text -/

theorem mapAttrsU_collect (f : String → Attrs → List Node → Attrs)
    (p : Node → Bool)
    (hp : ∀ tg a ch a2 ch2, p (.elem tg a ch) = p (.elem tg a2 ch2))
    (hpt : ∀ s, p (.text s) = false) :
    ∀ t, (collectDesc p ((mapAttrs (γ := Unit)
        (fun _ _ tg a ch => ((), f tg a ch)) (fun _ _ => ()) () () t).2)).map
          Node.attrs =
      (collectDesc p t).map (fun n => f n.tag n.attrs n.children) := by
  intro t
  induction t using Node.indOn with
  | ht s => simp [mapAttrs, collectDesc]
  | he tg a ch ih =>
    simp only [mapAttrs, collectDesc]
    induction ch with
    | nil => simp [mapAttrsList, collectList]
    | cons n ns ihl =>
      simp only [mapAttrsList, collectList, List.map_append]
      have hih := ih n (by simp)
      have hihl := ihl (fun m hm => ih m (by simp [hm]))
      refine congrArg₂ (· ++ ·) (congrArg₂ (· ++ ·) ?_ ?_) ?_
      · cases n with
        | text s2 =>
            simp only [mapAttrs]
            rw [hpt s2]
            simp
        | elem tg2 a2 ch2 =>
            simp only [mapAttrs]
            rw [hp tg2 (f tg2 a2 ch2)
              ((mapAttrsList (γ := Unit)
                  (fun _ _ tg3 a3 ch3 => ((), f tg3 a3 ch3))
                  (fun _ _ => ()) () () ch2).2)
              a2 ch2]
            by_cases hpn : p (.elem tg2 a2 ch2) = true
            · rw [if_pos hpn, if_pos hpn]
              simp [Node.attrs, Node.tag, Node.children]
            · rw [if_neg hpn, if_neg hpn]
              simp
      · exact hih
      · exact hihl

theorem headingFix_id (tg : String) (a : Attrs) (ch : List Node)
    (htag : isHeadingTag tg = true) (hid : truthy (getA a "id") = false) :
    getA (headingFix tg a ch) "id" =
      some (slugify (jsTrim (textContentList ch))) := by
  unfold headingFix
  rw [if_pos htag]
  simp only [hid, Bool.false_eq_true, if_false]
  split
  · rw [getA_setA, if_neg (by decide), getA_setA, if_neg (by decide),
      getA_setA, if_pos rfl]
  · rw [getA_setA, if_neg (by decide), getA_setA, if_pos rfl]

theorem isHeading_isElem (n : Node) (h : isHeading n = true) :
    ∃ tg a ch, n = Node.elem tg a ch := by
  cases n with
  | elem tg a ch => exact ⟨tg, a, ch, rfl⟩
  | text s => simp [isHeading, Node.tag, isHeadingTag] at h

theorem enhanceHeadings_ids (t : Node) :
    (collectDesc isHeading (enhanceHeadings t)).map (fun n => attr n "id") =
      (collectDesc isHeading t).map
        (fun n => getA (headingFix n.tag n.attrs n.children) "id") := by
  unfold enhanceHeadings forEachElem
  cases t with
  | text s => simp [collectDesc]
  | elem tg a ch =>
    have h := mapAttrsU_collect headingFix isHeading
      (fun tg2 a2 ch2 a3 ch3 => by simp [isHeading, Node.tag])
      (fun s => by simp [isHeading, Node.tag, isHeadingTag])
      (.elem tg a ch)
    simp only [mapAttrs, collectDesc] at h ⊢
    have h2 : ∀ l : List Node, (l.map Node.attrs).map (fun a2 => getA a2 "id") =
        l.map (fun n => attr n "id") := by
      intro l; rw [List.map_map]; rfl
    rw [← h2, h, List.map_map]
    rfl

set_option maxHeartbeats 1600000 in
/-- C9: the Enhancer's heading id is a pure function of the heading's
trimmed text, so two id-less headings with the same text end up with the
same slug id (first conjunct), and the Auditor's duplicate-id check then
reports the collision, as on a body with two `Intro` headings (second
conjunct). -/
theorem C9_slug_purity :
    (∀ (t : Node) (i j : Nat) (a b : Node),
      (collectDesc isHeading t).get? i = some a →
      (collectDesc isHeading t).get? j = some b →
      truthy (attr a "id") = false →
      truthy (attr b "id") = false →
      jsTrim (textContent a) = jsTrim (textContent b) →
      ((collectDesc isHeading (enhanceHeadings t)).map
          (fun n => attr n "id")).get? i =
          some (some (slugify (jsTrim (textContent a)))) ∧
      ((collectDesc isHeading (enhanceHeadings t)).map
          (fun n => attr n "id")).get? j =
          some (some (slugify (jsTrim (textContent a))))) ∧
    (∃ e, SRIssue.duplicateId "intro" e ∈
      checkScreenReaderAnnouncements (enhanceWithAria rndDemo
        (docOf [.elem "body" []
          [.elem "h2" [] [.text "Intro"], .elem "h2" [] [.text "Intro"]]]) {})) := by
  constructor
  · intro t i j a b hi hj hida hidb htext
    have hha : isHeading a = true :=
      mem_collectDesc isHeading t a (List.get?_mem hi)
    have hhb : isHeading b = true :=
      mem_collectDesc isHeading t b (List.get?_mem hj)
    rcases isHeading_isElem a hha with ⟨tga, aa, cha, rfl⟩
    rcases isHeading_isElem b hhb with ⟨tgb, ab, chb, rfl⟩
    rw [enhanceHeadings_ids, List.get?_map, List.get?_map, hi, hj]
    simp only [isHeading, Node.tag] at hha hhb
    simp only [attr, Node.attrs] at hida hidb
    simp only [Option.map_some, Option.map_some', Node.tag, Node.attrs,
      Node.children]
    rw [headingFix_id tga aa cha hha hida, headingFix_id tgb ab chb hhb hidb]
    refine ⟨rfl, ?_⟩
    simp only [textContent]
    rw [show jsTrim (textContentList cha) = jsTrim (textContentList chb) from by
      simpa [textContent] using htext]
  · exact ⟨.elem "h2" [("id", "intro"), ("tabindex", "-1")] [.text "Intro"],
      by decide⟩

/-- Witness for C9 on the two-`Intro` document. -/
theorem C9_witness :
    ((collectDesc isHeading (enhanceHeadings
        (docOf [.elem "body" []
          [.elem "h2" [] [.text "Intro"], .elem "h2" [] [.text "Intro"]]]))).map
        (fun n => attr n "id")).get? 0 = some (some "intro") ∧
    ((collectDesc isHeading (enhanceHeadings
        (docOf [.elem "body" []
          [.elem "h2" [] [.text "Intro"], .elem "h2" [] [.text "Intro"]]]))).map
        (fun n => attr n "id")).get? 1 = some (some "intro") := by
  have h := C9_slug_purity.1
    (docOf [.elem "body" []
      [.elem "h2" [] [.text "Intro"], .elem "h2" [] [.text "Intro"]]])
    0 1 (.elem "h2" [] [.text "Intro"]) (.elem "h2" [] [.text "Intro"])
    (by decide) (by decide) (by decide) (by decide) rfl
  exact ⟨by rw [h.1]; decide, by rw [h.2]; decide⟩

/-! ## C8: the Enhancer degrades gracefully on fragments -/

theorem updFirst_nomatch (p : Node → Bool) (f : Node → Node) :
    ∀ t, qsel p t = none → updFirst p f t = t := by
  intro t
  induction t using Node.indOn with
  | ht s => intro _; rfl
  | he tg a ch ih =>
    intro h
    simp only [qsel] at h
    simp only [updFirst]
    congr 1
    induction ch with
    | nil => rfl
    | cons n ns ihl =>
      simp only [qselList] at h
      by_cases hp : p n = true
      · rw [if_pos hp] at h
        exact absurd h (by simp)
      · rw [if_neg hp] at h
        simp only [updFirstList, hp, Bool.false_eq_true, if_false]
        cases hq : qsel p n with
        | some m => rw [hq] at h; exact absurd h (by simp)
        | none =>
          rw [hq] at h
          rw [if_neg (by simp [hq])]
          rw [ihl (fun m hm => ih m (by simp [hm])) h]

set_option maxHeartbeats 1600000

/-- C8: the Enhancer never fails on fragments: on a pure-text fragment the
whole pass chain is the identity for every frontmatter; the language pass
is a no-op without an `html` element; the title pass is a no-op without
`head` and `html`; skip-navigation is a no-op without a `body`; and the
main-landmark resolution is a no-op when no `main`, no candidate container
and no `body` exists. -/
theorem C8_graceful_degradation :
    (∀ (s : String) (fm : Frontmatter) (rnd : Nat → String),
      enhanceWithAria rnd (docOf [.text s]) fm = docOf [.text s]) ∧
    (∀ (t : Node) (lang : String), qsel (tagIs "html") t = none →
      ensureHtmlLangAttribute t lang = t) ∧
    (∀ (t : Node) (ti : Option String), qsel (tagIs "head") t = none →
      qsel (tagIs "html") t = none → ensureDocumentTitle t ti = t) ∧
    (∀ t : Node, qsel (tagIs "body") t = none → addSkipNavigation t = t) ∧
    (∀ t : Node, qsel (tagIs "main") t = none → qsel isMainCandidate t = none →
      qsel (tagIs "body") t = none → landmarkMain t = t) := by
  refine ⟨?_, ?_, ?_, ?_, ?_⟩
  · intro s fm rnd
    simp only [enhanceWithAria]
    rw [show (if truthy fm.language = true then
          ensureHtmlLangAttribute (docOf [.text s]) (fm.language.getD "")
        else docOf [.text s]) = docOf [.text s] from by split <;> rfl]
    rw [show ensureDocumentTitle (docOf [.text s]) fm.title = docOf [.text s]
        from by
      unfold ensureDocumentTitle
      split <;> rfl]
    rfl
  · intro t lang h
    exact updFirst_nomatch _ _ t h
  · intro t ti hhead hhtml
    unfold ensureDocumentTitle
    split
    · rw [hhead, hhtml]
    · rfl
  · intro t hbody
    unfold addSkipNavigation
    rw [hbody]
    simp
  · intro t h1 h2 h3
    unfold landmarkMain
    rw [h1, h2, h3]
    simp

/-- Witness for C8 at concrete fragments. -/
theorem C8_witness :
    enhanceWithAria rndDemo (docOf [.text "x"]) {} = docOf [.text "x"] ∧
    ensureHtmlLangAttribute (docOf [.text "x"]) "en" = docOf [.text "x"] ∧
    ensureDocumentTitle (docOf [.text "x"]) (some "T") = docOf [.text "x"] ∧
    addSkipNavigation (docOf [.text "x"]) = docOf [.text "x"] ∧
    landmarkMain (docOf [.elem "p" [] []]) = docOf [.elem "p" [] []] :=
  ⟨C8_graceful_degradation.1 "x" {} rndDemo,
   C8_graceful_degradation.2.1 (docOf [.text "x"]) "en" (by decide),
   C8_graceful_degradation.2.2.1 (docOf [.text "x"]) (some "T") (by decide) (by decide),
   C8_graceful_degradation.2.2.2.1 (docOf [.text "x"]) (by decide),
   C8_graceful_degradation.2.2.2.2 (docOf [.elem "p" [] []]) (by decide) (by decide)
     (by decide)⟩

set_option maxHeartbeats 200000

/-! ## C7: WCAG color contrast -/

theorem linearize_zero : linearize 0 = 0 := by
  unfold linearize
  rw [if_pos (by norm_num)]
  norm_num

theorem linearize_255 : linearize 255 = 1 := by
  unfold linearize
  rw [if_neg (by norm_num)]
  rw [show (((255:ℕ):ℝ) / 255 + 0.055) / 1.055 = 1 by norm_num]
  exact Real.one_rpow _

theorem luminance_black : luminance (0, 0, 0) = 0 := by
  unfold luminance
  simp [linearize_zero]

theorem luminance_white : luminance (255, 255, 255) = 1 := by
  unfold luminance
  rw [linearize_255]
  norm_num

theorem contrast_black_white : contrastRatio (0, 0, 0) (255, 255, 255) = 21 := by
  simp only [contrastRatio]
  rw [luminance_black, luminance_white]
  rw [max_eq_right (by norm_num), min_eq_left (by norm_num)]
  norm_num

theorem linearize_150 : linearize 150 = ((2187 / 3587 : ℝ)) ^ (2.4 : ℝ) := by
  unfold linearize
  rw [if_neg (by norm_num)]
  norm_num

theorem gray_pow_bounds :
    (3049 / 10000 : ℝ) < ((2187 / 3587 : ℝ)) ^ (2.4 : ℝ) ∧
      ((2187 / 3587 : ℝ)) ^ (2.4 : ℝ) < (3051 / 10000 : ℝ) := by
  have hx : (0 : ℝ) ≤ 2187 / 3587 := by norm_num
  have hy0 : (0 : ℝ) ≤ ((2187 / 3587 : ℝ)) ^ (2.4 : ℝ) := Real.rpow_nonneg hx _
  have h5 : (((2187 / 3587 : ℝ)) ^ (2.4 : ℝ)) ^ (5 : ℕ) =
      ((2187 / 3587 : ℝ)) ^ (12 : ℕ) := by
    rw [← Real.rpow_natCast (((2187 / 3587 : ℝ)) ^ (2.4 : ℝ)) 5,
      ← Real.rpow_mul hx]
    rw [show (2.4 : ℝ) * (5 : ℕ) = ((12 : ℕ) : ℝ) by norm_num]
    rw [Real.rpow_natCast]
  have hb1 : ((3049 / 10000 : ℝ)) ^ (5 : ℕ) < ((2187 / 3587 : ℝ)) ^ (12 : ℕ) := by
    norm_num
  have hb2 : ((2187 / 3587 : ℝ)) ^ (12 : ℕ) < ((3051 / 10000 : ℝ)) ^ (5 : ℕ) := by
    norm_num
  constructor
  · by_contra hle
    push_neg at hle
    have h2 : (((2187 / 3587 : ℝ)) ^ (2.4 : ℝ)) ^ (5 : ℕ) ≤
        ((3049 / 10000 : ℝ)) ^ (5 : ℕ) := pow_le_pow_left hy0 hle 5
    rw [h5] at h2
    linarith
  · by_contra hle
    push_neg at hle
    have h2 : ((3051 / 10000 : ℝ)) ^ (5 : ℕ) ≤
        (((2187 / 3587 : ℝ)) ^ (2.4 : ℝ)) ^ (5 : ℕ) :=
      pow_le_pow_left (by norm_num) hle 5
    rw [h5] at h2
    linarith

theorem luminance_gray_bounds :
    (3049 / 10000 : ℝ) < luminance (150, 150, 150) ∧
      luminance (150, 150, 150) < (3051 / 10000 : ℝ) := by
  have h : luminance (150, 150, 150) = ((2187 / 3587 : ℝ)) ^ (2.4 : ℝ) := by
    unfold luminance
    rw [linearize_150]
    ring
  rw [h]
  exact gray_pow_bounds

theorem contrast_gray_white :
    contrastRatio (150, 150, 150) (255, 255, 255) =
      1.05 / (luminance (150, 150, 150) + 0.05) ∧
    contrastRatio (150, 150, 150) (255, 255, 255) < 4.5 ∧
    toFixed2 (contrastRatio (150, 150, 150) (255, 255, 255)) = 296 := by
  obtain ⟨hlo, hhi⟩ := luminance_gray_bounds
  have hpos : (0 : ℝ) < luminance (150, 150, 150) + 0.05 := by linarith
  have hratio : contrastRatio (150, 150, 150) (255, 255, 255) =
      1.05 / (luminance (150, 150, 150) + 0.05) := by
    simp only [contrastRatio]
    rw [luminance_white]
    rw [max_eq_right (by linarith), min_eq_left (by linarith)]
    norm_num
  refine ⟨hratio, ?_, ?_⟩
  · rw [hratio, div_lt_iff hpos]
    linarith
  · rw [hratio]
    unfold toFixed2
    have h1 : (2.955 : ℝ) ≤ 1.05 / (luminance (150, 150, 150) + 0.05) := by
      rw [le_div_iff hpos]
      linarith
    have h2 : 1.05 / (luminance (150, 150, 150) + 0.05) < 2.965 := by
      rw [div_lt_iff hpos]
      linarith
    rw [Int.floor_eq_iff]
    constructor
    · push_cast
      linarith
    · push_cast
      linarith

theorem contrastElemIssue_parsed (style : Node → CSSStyle) (el : Node)
    (fg bg : Nat × Nat × Nat)
    (hc : (style el).color ≠ "") (hb : (style el).backgroundColor ≠ "")
    (hfg : parseColor (style el).color = some fg)
    (hbg : parseColor (style el).backgroundColor = some bg) :
    contrastElemIssue style el = contrastDecide (style el) el fg bg := by
  unfold contrastElemIssue
  rw [if_neg (by simp [hc, hb])]
  rw [hfg, hbg]

/-- C7: for a text element with resolvable, parseable colors the contrast
check emits an issue exactly when the WCAG ratio is below the applicable
minimum (4.5, or 3 for large text, encoded in `minimumRatio`); black on
white at 16px has ratio exactly 21 and produces no issue; gray `rgb(150,
150, 150)` on white at 16px produces exactly one issue carrying the ratio
to two decimals (2.96) and the required minimum 4.5. -/
theorem C7_contrast :
    (∀ (style : Node → CSSStyle) (el : Node) (fg bg : Nat × Nat × Nat),
      (style el).color ≠ "" → (style el).backgroundColor ≠ "" →
      parseColor (style el).color = some fg →
      parseColor (style el).backgroundColor = some bg →
      ((contrastElemIssue style el).isSome = true ↔
        contrastRatio fg bg < ((minimumRatio (style el) : ℚ) : ℝ))) ∧
    (contrastRatio (0, 0, 0) (255, 255, 255) = 21 ∧
      checkColorContrast styleBW docP = []) ∧
    checkColorContrast styleGray docP =
      [⟨296, 9 / 2, pElem, "rgb(150, 150, 150)", "rgb(255, 255, 255)"⟩] := by
  have hminBW : minimumRatio (styleBW pElem) = 9 / 2 := by
    unfold minimumRatio
    rw [show isLargeText (styleBW pElem) = false from by decide]
    norm_num
  have hminG : minimumRatio (styleGray pElem) = 9 / 2 := by
    unfold minimumRatio
    rw [show isLargeText (styleGray pElem) = false from by decide]
    norm_num
  refine ⟨?_, ⟨contrast_black_white, ?_⟩, ?_⟩
  · intro style el fg bg hc hb hfg hbg
    rw [contrastElemIssue_parsed style el fg bg hc hb hfg hbg]
    simp only [contrastDecide]
    split
    · rename_i hlt
      simpa using hlt
    · rename_i hlt
      simpa using hlt
  · unfold checkColorContrast
    rw [show collectDesc isTextElement docP = [pElem] from by decide,
      List.filterMap_cons]
    rw [show contrastElemIssue styleBW pElem =
        contrastDecide (styleBW pElem) pElem (0, 0, 0) (255, 255, 255) from
      contrastElemIssue_parsed styleBW pElem (0, 0, 0) (255, 255, 255)
        (by decide) (by decide) (by decide) (by decide)]
    simp only [contrastDecide]
    rw [if_neg (by
      rw [contrast_black_white, hminBW]
      push_cast
      norm_num)]
    rfl
  · unfold checkColorContrast
    rw [show collectDesc isTextElement docP = [pElem] from by decide,
      List.filterMap_cons]
    rw [show contrastElemIssue styleGray pElem =
        contrastDecide (styleGray pElem) pElem (150, 150, 150) (255, 255, 255) from
      contrastElemIssue_parsed styleGray pElem (150, 150, 150) (255, 255, 255)
        (by decide) (by decide) (by decide) (by decide)]
    simp only [contrastDecide]
    rw [if_pos (by
      rw [hminG]
      push_cast
      have h := contrast_gray_white.2.1
      norm_num at h ⊢
      linarith)]
    rw [show toFixed2 (contrastRatio (150, 150, 150) (255, 255, 255)) = 296 from
      contrast_gray_white.2.2]
    rw [hminG]
    rfl

/-- Witness for C7's quantified conjunct at the gray style. -/
theorem C7_witness :
    (contrastElemIssue styleGray pElem).isSome = true ↔
      contrastRatio (150, 150, 150) (255, 255, 255) <
        ((minimumRatio (styleGray pElem) : ℚ) : ℝ) :=
  C7_contrast.1 styleGray pElem (150, 150, 150) (255, 255, 255)
    (by decide) (by decide) (by decide) (by decide)

/-! ## Counting lemmas -/

theorem cntL_cons (q : Node → Bool) (n : Node) (ns : List Node) :
    cntL q (n :: ns) = wcount q n + cntL q ns := by
  unfold cntL wcount cnt
  simp only [collectList, List.length_append]
  by_cases h : q n = true
  · rw [if_pos h, if_pos h]
    simp [Nat.add_assoc]
  · rw [if_neg h, if_neg h]
    simp

theorem cntL_reverse (q : Node → Bool) : ∀ l : List Node,
    cntL q l.reverse = cntL q l := by
  intro l
  induction l with
  | nil => rfl
  | cons n ns ih =>
    rw [List.reverse_cons, cntL_cons]
    unfold cntL at *
    have happ : ∀ l1 l2 : List Node,
        collectList q (l1 ++ l2) = collectList q l1 ++ collectList q l2 := by
      intro l1
      induction l1 with
      | nil => simp [collectList]
      | cons x xs ihx => intro l2; simp [collectList, ihx, List.append_assoc]
    rw [happ]
    simp only [List.length_append, ih]
    unfold wcount cnt
    simp only [collectList, List.length_append, List.append_nil]
    by_cases h : q n = true
    · rw [if_pos h, if_pos h]
      simp [Nat.add_comm]
    · rw [if_neg h, if_neg h]
      simp [Nat.add_comm]

theorem cnt_elem (q : Node → Bool) (tg : String) (a : Attrs) (ch : List Node) :
    cnt q (.elem tg a ch) = cntL q ch := rfl

theorem qsel_isSome_cnt (q : Node → Bool) (t : Node) :
    (qsel q t).isSome = (cnt q t != 0) := by
  rw [(qsel_eq_head q).1 t]
  unfold cnt
  cases collectDesc q t <;> simp

/-- Additive count change through a first-match replacement, under a
hereditary side condition `W` on the tree. -/
theorem updFirst_cnt_add (p : Node → Bool) (f : Node → Node) (q : Node → Bool)
    (W : Node → Bool) (d : Nat)
    (hqc : ∀ tg a ch ch2, q (.elem tg a ch) = q (.elem tg a ch2))
    (hW : ∀ tg a ch, W (.elem tg a ch) = true → ∀ c ∈ ch, W c = true)
    (hf : ∀ n, p n = true → W n = true → wcount q (f n) = wcount q n + d) :
    ∀ t, W t = true → (qsel p t).isSome = true →
      cnt q (updFirst p f t) = cnt q t + d := by
  intro t
  induction t using Node.indOn with
  | ht s => intro _ h; simp [qsel] at h
  | he tg a ch ih =>
    intro hWt h
    simp only [qsel] at h
    simp only [updFirst, cnt_elem]
    have key : ∀ ns : List Node, (∀ c ∈ ns, W c = true) →
        (∀ n ∈ ns, W n = true → (qsel p n).isSome = true →
          cnt q (updFirst p f n) = cnt q n + d) →
        (qselList p ns).isSome = true →
        cntL q (updFirstList p f ns) = cntL q ns + d := by
      intro ns
      induction ns with
      | nil => intro _ _ hx; simp [qselList] at hx
      | cons n ns2 ihl =>
        intro hWc hP hx
        simp only [qselList] at hx
        by_cases hp : p n = true
        · simp only [updFirstList, hp, if_true]
          rw [cntL_cons, cntL_cons, hf n hp (hWc n (by simp))]
          omega
        · rw [if_neg hp] at hx
          simp only [updFirstList, hp, Bool.false_eq_true, if_false]
          cases hq2 : qsel p n with
          | some m2 =>
            rw [if_pos (by simp [hq2])]
            rw [cntL_cons, cntL_cons]
            have hcnt := hP n (by simp) (hWc n (by simp)) (by simp [hq2])
            have hqtop : q (updFirst p f n) = q n := by
              cases n with
              | text s2 => rfl
              | elem tg2 a2 ch2 => exact hqc tg2 a2 _ ch2
            unfold wcount
            rw [hqtop, hcnt]
            omega
          | none =>
            rw [hq2] at hx
            rw [if_neg (by simp [hq2])]
            rw [cntL_cons, cntL_cons,
              ihl (fun c hc => hWc c (by simp [hc]))
                (fun m hm => hP m (by simp [hm])) hx]
            omega
    exact key ch (hW tg a ch hWt) (fun n hn => ih n hn) h

/-- The first match of the result of a first-match replacement. -/
theorem updFirst_qsel (p : Node → Bool) (f : Node → Node)
    (hpc : ∀ tg a ch ch2, p (.elem tg a ch) = p (.elem tg a ch2))
    (hf : ∀ n, p n = true → p (f n) = true) :
    ∀ t m, qsel p t = some m → qsel p (updFirst p f t) = some (f m) := by
  intro t
  induction t using Node.indOn with
  | ht s => intro m h; simp [qsel] at h
  | he tg a ch ih =>
    intro m h
    simp only [qsel] at h ⊢
    simp only [updFirst]
    have key : ∀ (ns : List Node) (m2 : Node),
        (∀ n ∈ ns, ∀ m3, qsel p n = some m3 →
          qsel p (updFirst p f n) = some (f m3)) →
        qselList p ns = some m2 →
        qselList p (updFirstList p f ns) = some (f m2) := by
      intro ns
      induction ns with
      | nil => intro m2 _ hx; simp [qselList] at hx
      | cons n ns2 ihl =>
        intro m2 hP hx
        simp only [qselList] at hx
        by_cases hp : p n = true
        · rw [if_pos hp] at hx
          injection hx with hx
          subst hx
          simp only [updFirstList, hp, if_true, qselList]
          rw [if_pos (hf n hp)]
        · rw [if_neg hp] at hx
          have hptop : p (updFirst p f n) = p n := by
            cases n with
            | text s2 => rfl
            | elem tg2 a2 ch2 => exact hpc tg2 a2 _ ch2
          cases hq2 : qsel p n with
          | some m3 =>
            rw [hq2] at hx
            injection hx with hx
            subst hx
            simp only [updFirstList, hp, Bool.false_eq_true, if_false]
            rw [if_pos (by simp [hq2])]
            simp only [qselList, hptop, hp, Bool.false_eq_true, if_false]
            rw [hP n (by simp) m3 hq2]
          | none =>
            rw [hq2] at hx
            simp only [updFirstList, hp, Bool.false_eq_true, if_false]
            rw [if_neg (by simp [hq2])]
            simp only [qselList, hp, Bool.false_eq_true, if_false, hq2]
            exact ihl m2 (fun m3 hm => hP m3 (by simp [hm])) hx
    exact key ch m (fun n hn => ih n hn) h

/-- Attribute passes don't change match counts of predicates they leave
invariant. -/
theorem mapAttrs_cnt {σ γ : Type}
    (f : σ → γ → String → Attrs → List Node → σ × Attrs)
    (g : γ → Node → γ) (q : Node → Bool)
    (hq : ∀ st ctx tg a ch ch2,
      q (.elem tg (f st ctx tg a ch).2 ch2) = q (.elem tg a ch)) :
    ∀ t st ctx, cnt q ((mapAttrs f g st ctx t).2) = cnt q t := by
  intro t
  induction t using Node.indOn with
  | ht s => intro st ctx; rfl
  | he tg a ch ih =>
    intro st ctx
    simp only [mapAttrs, cnt_elem]
    have key : ∀ (ns : List Node) (st2 : σ) (ctx2 : γ),
        (∀ n ∈ ns, ∀ st3 ctx3, cnt q ((mapAttrs f g st3 ctx3 n).2) = cnt q n) →
        cntL q ((mapAttrsList f g st2 ctx2 ns).2) = cntL q ns := by
      intro ns
      induction ns with
      | nil => intro st2 ctx2 _; rfl
      | cons n ns2 ihl =>
        intro st2 ctx2 hP
        simp only [mapAttrsList]
        rw [cntL_cons, cntL_cons]
        have hq2 : q ((mapAttrs f g st2 ctx2 n).2) = q n := by
          cases n with
          | text s2 => rfl
          | elem tg2 a2 ch2 =>
            simp only [mapAttrs]
            rw [hq]
        have h1 : wcount q ((mapAttrs f g st2 ctx2 n).2) = wcount q n := by
          unfold wcount
          rw [hq2, hP n (by simp) st2 ctx2]
        rw [h1, ihl _ ctx2 (fun m hm => hP m (by simp [hm]))]
    exact key ch _ _ (fun n hn => ih n hn)

/-- Attribute passes that fix the attributes of `p`-matching elements keep
the first `p`-match's attributes. -/
theorem mapAttrs_qsel_attrs {σ γ : Type}
    (f : σ → γ → String → Attrs → List Node → σ × Attrs)
    (g : γ → Node → γ) (p : Node → Bool)
    (hpinv : ∀ st ctx tg a ch ch2,
      p (.elem tg (f st ctx tg a ch).2 ch2) = p (.elem tg a ch))
    (hfix : ∀ st ctx tg a ch, p (.elem tg a ch) = true →
      (f st ctx tg a ch).2 = a) :
    ∀ t st ctx, (qsel p ((mapAttrs f g st ctx t).2)).map Node.attrs =
      (qsel p t).map Node.attrs := by
  intro t
  induction t using Node.indOn with
  | ht s => intro st ctx; rfl
  | he tg a ch ih =>
    intro st ctx
    simp only [mapAttrs, qsel]
    have key : ∀ (ns : List Node) (st2 : σ) (ctx2 : γ),
        (∀ n ∈ ns, ∀ st3 ctx3,
          (qsel p ((mapAttrs f g st3 ctx3 n).2)).map Node.attrs =
            (qsel p n).map Node.attrs) →
        (qselList p ((mapAttrsList f g st2 ctx2 ns).2)).map Node.attrs =
          (qselList p ns).map Node.attrs := by
      intro ns
      induction ns with
      | nil => intro st2 ctx2 _; rfl
      | cons n ns2 ihl =>
        intro st2 ctx2 hP
        simp only [mapAttrsList, qselList]
        have hptop : p ((mapAttrs f g st2 ctx2 n).2) = p n := by
          cases n with
          | text s2 => rfl
          | elem tg2 a2 ch2 =>
            simp only [mapAttrs]
            rw [hpinv]
        by_cases hp : p n = true
        · rw [if_pos (by rw [hptop]; exact hp), if_pos hp]
          cases n with
          | text s2 => rfl
          | elem tg2 a2 ch2 =>
            simp only [mapAttrs]
            rw [hfix _ _ _ _ _ hp]
            rfl
        · rw [if_neg (by rw [hptop]; exact hp), if_neg hp]
          have hin := hP n (by simp) st2 ctx2
          cases hq2 : qsel p n with
          | some m =>
            rw [hq2] at hin
            cases hq3 : qsel p ((mapAttrs f g st2 ctx2 n).2) with
            | none => rw [hq3] at hin; simp at hin
            | some m2 =>
              rw [hq3] at hin
              exact hin
          | none =>
            rw [hq2] at hin
            cases hq3 : qsel p ((mapAttrs f g st2 ctx2 n).2) with
            | some m2 => rw [hq3] at hin; simp at hin
            | none =>
              exact ihl _ ctx2 (fun m hm => hP m (by simp [hm]))
    exact key ch _ _ (fun n hn => ih n hn)

/-- A first-match attribute rewrite for tag `p` leaves the first `q`-match's
attributes alone when no node can match both. -/
theorem updFirst_attrs_other (p : Node → Bool) (h : Attrs → Attrs)
    (q : Node → Bool)
    (hqc : ∀ tg a ch ch2, q (.elem tg a ch) = q (.elem tg a ch2))
    (hdisj : ∀ n, p n = true → q n = false ∧ q (onAttrs h n) = false) :
    ∀ t, (qsel q (updFirst p (onAttrs h) t)).map Node.attrs =
      (qsel q t).map Node.attrs := by
  intro t
  induction t using Node.indOn with
  | ht s => rfl
  | he tg a ch ih =>
    simp only [updFirst, qsel]
    have key : ∀ ns : List Node,
        (∀ n ∈ ns, (qsel q (updFirst p (onAttrs h) n)).map Node.attrs =
          (qsel q n).map Node.attrs) →
        (qselList q (updFirstList p (onAttrs h) ns)).map Node.attrs =
          (qselList q ns).map Node.attrs := by
      intro ns
      induction ns with
      | nil => intro _; rfl
      | cons n ns2 ihl =>
        intro hP
        simp only [updFirstList]
        by_cases hp : p n = true
        · rw [if_pos hp]
          simp only [qselList]
          rw [(hdisj n hp).2, (hdisj n hp).1]
          simp only [Bool.false_eq_true, if_false]
          have hsub : qsel q (onAttrs h n) = qsel q n := by
            cases n with
            | text s2 => rfl
            | elem tg2 a2 ch2 => rfl
          rw [hsub]
        · rw [if_neg hp]
          by_cases hfound : (qsel p n).isSome = true
          · rw [if_pos hfound]
            simp only [qselList]
            have hqtop : q (updFirst p (onAttrs h) n) = q n := by
              cases n with
              | text s2 => rfl
              | elem tg2 a2 ch2 => exact hqc tg2 a2 _ ch2
            rw [hqtop]
            by_cases hq2 : q n = true
            · rw [if_pos hq2, if_pos hq2]
              have hattrs : (updFirst p (onAttrs h) n).attrs = n.attrs := by
                cases n with
                | text s2 => rfl
                | elem tg2 a2 ch2 => rfl
              exact congrArg some hattrs
            · rw [if_neg hq2, if_neg hq2]
              have hin := hP n (by simp)
              cases hq3 : qsel q n with
              | some m =>
                rw [hq3] at hin
                cases hq4 : qsel q (updFirst p (onAttrs h) n) with
                | none => rw [hq4] at hin; simp at hin
                | some m2 =>
                  rw [hq4] at hin
                  exact hin
              | none =>
                rw [hq3] at hin
                cases hq4 : qsel q (updFirst p (onAttrs h) n) with
                | some m2 => rw [hq4] at hin; simp at hin
                | none => rfl
          · rw [if_neg hfound]
            simp only [qselList]
            by_cases hq2 : q n = true
            · rw [if_pos hq2, if_pos hq2]
            · rw [if_neg hq2, if_neg hq2]
              cases hq3 : qsel q n with
              | some m => rfl
              | none =>
                exact ihl (fun m hm => hP m (by simp [hm]))
    exact key ch (fun n hn => ih n hn)

theorem updNthAList_stnone (p : Node → Bool) (f : Node → Node) :
    ∀ l, updNthAList p f none l = (none, l) := by
  intro l
  cases l <;> rfl

/-- Indexed replacement preserves counts of invariant predicates when the
rewrite preserves subtree weight. -/
theorem updNthA_cnt_pres (p : Node → Bool) (f : Node → Node) (q : Node → Bool)
    (hqc : ∀ tg a ch ch2, q (.elem tg a ch) = q (.elem tg a ch2))
    (hf : ∀ n, p n = true → wcount q (f n) = wcount q n) :
    ∀ t st, cnt q ((updNthA p f st t).2) = cnt q t := by
  intro t
  induction t using Node.indOn with
  | ht s => intro st; cases st <;> rfl
  | he tg a ch ih =>
    intro st
    have key : ∀ (ns : List Node) (st2 : Option Nat),
        (∀ n ∈ ns, ∀ st3, cnt q ((updNthA p f st3 n).2) = cnt q n) →
        cntL q ((updNthAList p f st2 ns).2) = cntL q ns := by
      intro ns
      induction ns with
      | nil => intro st2 _; cases st2 <;> rfl
      | cons n ns2 ihl =>
        intro st2 hP
        cases st2 with
        | none => rw [updNthAList_stnone]
        | some k =>
          simp only [updNthAList]
          have hwtop : ∀ st3, wcount q ((updNthA p f st3 n).2) = wcount q n := by
            intro st3
            unfold wcount
            rw [hP n (by simp) st3]
            congr 1
            cases n with
            | text s2 => cases st3 <;> rfl
            | elem tg2 a2 ch2 =>
                cases st3 with
                | none => rfl
                | some k2 =>
                  simp only [updNthA]
                  exact if_congr (by rw [hqc tg2 a2 _ ch2]) rfl rfl
          by_cases hp : p n = true
          · rw [if_pos hp]
            by_cases hk : k = 0
            · rw [if_pos hk]
              rw [cntL_cons, cntL_cons, hf n hp]
            · rw [if_neg hk]
              rw [cntL_cons, cntL_cons, hwtop,
                ihl _ (fun m hm => hP m (by simp [hm]))]
          · rw [if_neg hp]
            rw [cntL_cons, cntL_cons, hwtop,
              ihl _ (fun m hm => hP m (by simp [hm]))]
    cases st with
    | none => rfl
    | some k =>
      simp only [updNthA, cnt_elem]
      exact key ch _ (fun n hn => ih n hn)

theorem updPrevElem_cntL (f : Node → Node) (q : Node → Bool)
    (hf : ∀ n, n.isElem = true → wcount q (f n) = wcount q n) :
    ∀ l, cntL q (updPrevElem f l) = cntL q l := by
  intro l
  induction l with
  | nil => rfl
  | cons n ns ih =>
    simp only [updPrevElem]
    by_cases he : n.isElem = true
    · rw [if_pos he, cntL_cons, cntL_cons, hf n he]
    · rw [if_neg he, cntL_cons, cntL_cons, ih]

/-- A tag test is a `QInv` predicate as soon as the tag is a real element
tag. -/
theorem QInv_tagIs (x : String) (hx : ¬ x = "#text") : QInv (tagIs x) := by
  refine ⟨fun s => ?_, fun tg a ch ch2 => rfl, fun tg a ch k v _ => rfl⟩
  simp only [tagIs, Node.tag, decide_eq_false_iff_not]
  exact fun h => hx h.symm

theorem QInv_isSkipAnchor : QInv isSkipAnchor := by
  refine ⟨fun s => rfl, fun tg a ch ch2 => rfl, fun tg a ch k v hk => ?_⟩
  simp only [isSkipAnchor, attr, Node.attrs, Node.tag, getA_setA]
  rw [if_neg (fun h => hk h.symm)]

theorem QInv.addClassInv {q : Node → Bool} (hq : QInv q) (tg : String)
    (a : Attrs) (ch : List Node) (c : String) :
    q (.elem tg (addClass a c) ch) = q (.elem tg a ch) := by
  unfold addClass
  cases hg : getA a "class" with
  | none =>
    simp only [hg]
    exact hq.setAttr tg a ch "class" c (by decide)
  | some old =>
    simp only [hg]
    by_cases hc : (((old.toList.splitOnP jsIsSpace).map String.mk).filter
        (fun s => s ≠ "")).contains c = true
    · rw [if_pos hc]
    · rw [if_neg hc]
      exact hq.setAttr tg a ch "class" _ (by decide)

theorem QInv.warnInv {q : Node → Bool} (hq : QInv q) (tg : String) (a : Attrs)
    (ch : List Node) (msg : String) :
    q (.elem tg (warnAttrs msg a) ch) = q (.elem tg a ch) := by
  unfold warnAttrs
  rw [hq.setAttr _ _ _ _ _ (by decide), hq.addClassInv]

theorem wcount_onAttrs {q : Node → Bool} (hq : QInv q) (g : Attrs → Attrs)
    (hg : ∀ tg a ch, q (.elem tg (g a) ch) = q (.elem tg a ch)) (n : Node) :
    wcount q (onAttrs g n) = wcount q n := by
  cases n with
  | text s => rfl
  | elem tg a ch =>
    unfold wcount
    simp only [onAttrs]
    rw [cnt_elem, cnt_elem]
    have h2 : (if q (.elem tg (g a) ch) = true then (1 : Nat) else 0) =
        if q (.elem tg a ch) = true then 1 else 0 :=
      if_congr (by rw [hg]) rfl rfl
    omega

/-- First-match replacement preserves counts when the rewrite preserves
subtree weight (no match needed). -/
theorem updFirst_cnt_pres (p : Node → Bool) (f : Node → Node) (q : Node → Bool)
    (hqc : ∀ tg a ch ch2, q (.elem tg a ch) = q (.elem tg a ch2))
    (hf : ∀ n, p n = true → wcount q (f n) = wcount q n) :
    ∀ t, cnt q (updFirst p f t) = cnt q t := by
  intro t
  induction t using Node.indOn with
  | ht s => rfl
  | he tg a ch ih =>
    simp only [updFirst, cnt_elem]
    have key : ∀ ns : List Node,
        (∀ n ∈ ns, cnt q (updFirst p f n) = cnt q n) →
        cntL q (updFirstList p f ns) = cntL q ns := by
      intro ns
      induction ns with
      | nil => intro _; rfl
      | cons n ns2 ihl =>
        intro hP
        simp only [updFirstList]
        by_cases hp : p n = true
        · rw [if_pos hp, cntL_cons, cntL_cons, hf n hp]
        · rw [if_neg hp]
          by_cases hs : (qsel p n).isSome = true
          · rw [if_pos hs, cntL_cons, cntL_cons]
            have hqtop : q (updFirst p f n) = q n := by
              cases n with
              | text s2 => rfl
              | elem tg2 a2 ch2 => exact hqc tg2 a2 _ ch2
            unfold wcount
            rw [hqtop, hP n (by simp)]
          · rw [if_neg hs, cntL_cons, cntL_cons,
              ihl (fun m hm => hP m (by simp [hm]))]
    exact key ch (fun n hn => ih n hn)

theorem wcount_updFirst (p : Node → Bool) (f : Node → Node) (q : Node → Bool)
    (hqc : ∀ tg a ch ch2, q (.elem tg a ch) = q (.elem tg a ch2))
    (hf : ∀ n, p n = true → wcount q (f n) = wcount q n) (n : Node) :
    wcount q (updFirst p f n) = wcount q n := by
  cases n with
  | text s => rfl
  | elem tg a ch =>
    unfold wcount
    have h2 : (if q (updFirst p f (Node.elem tg a ch)) = true then (1 : Nat)
        else 0) = if q (.elem tg a ch) = true then 1 else 0 :=
      if_congr (by simp only [updFirst]; rw [hqc]) rfl rfl
    rw [h2, updFirst_cnt_pres p f q hqc hf]

theorem mapAttrs_wcount {σ γ : Type}
    (f : σ → γ → String → Attrs → List Node → σ × Attrs)
    (g : γ → Node → γ) (q : Node → Bool)
    (hq : ∀ st ctx tg a ch ch2,
      q (.elem tg (f st ctx tg a ch).2 ch2) = q (.elem tg a ch))
    (n : Node) (st : σ) (ctx : γ) :
    wcount q ((mapAttrs f g st ctx n).2) = wcount q n := by
  cases n with
  | text s => rfl
  | elem tg a ch =>
    unfold wcount
    have h2 : (if q ((mapAttrs f g st ctx (Node.elem tg a ch)).2) = true
        then (1 : Nat) else 0) = if q (.elem tg a ch) = true then 1 else 0 :=
      if_congr (by simp only [mapAttrs]; rw [hq]) rfl rfl
    rw [h2, mapAttrs_cnt f g q hq _ st ctx]

theorem mapAttrsList_cnt {σ γ : Type}
    (f : σ → γ → String → Attrs → List Node → σ × Attrs)
    (g : γ → Node → γ) (q : Node → Bool)
    (hq : ∀ st ctx tg a ch ch2,
      q (.elem tg (f st ctx tg a ch).2 ch2) = q (.elem tg a ch)) :
    ∀ (ns : List Node) (st : σ) (ctx : γ),
      cntL q ((mapAttrsList f g st ctx ns).2) = cntL q ns := by
  intro ns
  induction ns with
  | nil => intro st ctx; rfl
  | cons n ns2 ihl =>
    intro st ctx
    simp only [mapAttrsList]
    rw [cntL_cons, cntL_cons, mapAttrs_wcount f g q hq n st ctx, ihl]

theorem mapAttrsList_qsel_attrs {σ γ : Type}
    (f : σ → γ → String → Attrs → List Node → σ × Attrs)
    (g : γ → Node → γ) (p : Node → Bool)
    (hpinv : ∀ st ctx tg a ch ch2,
      p (.elem tg (f st ctx tg a ch).2 ch2) = p (.elem tg a ch))
    (hfix : ∀ st ctx tg a ch, p (.elem tg a ch) = true →
      (f st ctx tg a ch).2 = a) :
    ∀ (ns : List Node) (st : σ) (ctx : γ),
      (qselList p ((mapAttrsList f g st ctx ns).2)).map Node.attrs =
        (qselList p ns).map Node.attrs := by
  intro ns
  induction ns with
  | nil => intro st ctx; rfl
  | cons n ns2 ihl =>
    intro st ctx
    simp only [mapAttrsList, qselList]
    have hptop : p ((mapAttrs f g st ctx n).2) = p n := by
      cases n with
      | text s2 => rfl
      | elem tg2 a2 ch2 =>
        simp only [mapAttrs]
        rw [hpinv]
    by_cases hp : p n = true
    · rw [if_pos (by rw [hptop]; exact hp), if_pos hp]
      cases n with
      | text s2 => rfl
      | elem tg2 a2 ch2 =>
        simp only [mapAttrs]
        rw [hfix _ _ _ _ _ hp]
        rfl
    · rw [if_neg (by rw [hptop]; exact hp), if_neg hp]
      have hin := mapAttrs_qsel_attrs f g p hpinv hfix n st ctx
      cases hq2 : qsel p n with
      | some m =>
        rw [hq2] at hin
        cases hq3 : qsel p ((mapAttrs f g st ctx n).2) with
        | none => rw [hq3] at hin; simp at hin
        | some m2 => rw [hq3] at hin; exact hin
      | none =>
        rw [hq2] at hin
        cases hq3 : qsel p ((mapAttrs f g st ctx n).2) with
        | some m2 => rw [hq3] at hin; simp at hin
        | none => exact ihl _ ctx

theorem forEachElem_cnt (f : String → Attrs → List Node → Attrs)
    (q : Node → Bool)
    (hq : ∀ tg a ch ch2, q (.elem tg (f tg a ch) ch2) = q (.elem tg a ch))
    (t : Node) : cnt q (forEachElem f t) = cnt q t := by
  cases t with
  | text s => rfl
  | elem tg a ch =>
    simp only [forEachElem, cnt_elem]
    exact mapAttrsList_cnt _ _ q (fun st ctx tg2 a2 ch2 ch3 => hq tg2 a2 ch2 ch3)
      ch () ()

theorem forEachElemSt_cnt {σ : Type} (f : σ → String → Attrs → σ × Attrs)
    (q : Node → Bool)
    (hq : ∀ s tg a ch ch2, q (.elem tg (f s tg a).2 ch2) = q (.elem tg a ch))
    (s0 : σ) (t : Node) : cnt q (forEachElemSt f s0 t) = cnt q t := by
  cases t with
  | text s => rfl
  | elem tg a ch =>
    simp only [forEachElemSt, cnt_elem]
    exact mapAttrsList_cnt _ _ q (fun st ctx tg2 a2 ch2 ch3 => hq st tg2 a2 ch2 ch3)
      ch s0 ()

theorem forEachElem_qsel_attrs (f : String → Attrs → List Node → Attrs)
    (p : Node → Bool)
    (hpinv : ∀ tg a ch ch2, p (.elem tg (f tg a ch) ch2) = p (.elem tg a ch))
    (hfix : ∀ tg a ch, p (.elem tg a ch) = true → f tg a ch = a) (t : Node) :
    (qsel p (forEachElem f t)).map Node.attrs = (qsel p t).map Node.attrs := by
  cases t with
  | text s => rfl
  | elem tg a ch =>
    simp only [forEachElem, qsel]
    exact mapAttrsList_qsel_attrs _ _ p
      (fun st ctx tg2 a2 ch2 ch3 => hpinv tg2 a2 ch2 ch3)
      (fun st ctx tg2 a2 ch2 h => hfix tg2 a2 ch2 h) ch () ()

theorem forEachElemSt_qsel_attrs {σ : Type} (f : σ → String → Attrs → σ × Attrs)
    (p : Node → Bool)
    (hpinv : ∀ s tg a ch ch2, p (.elem tg (f s tg a).2 ch2) = p (.elem tg a ch))
    (hfix : ∀ s tg a ch, p (.elem tg a ch) = true → (f s tg a).2 = a)
    (s0 : σ) (t : Node) :
    (qsel p (forEachElemSt f s0 t)).map Node.attrs =
      (qsel p t).map Node.attrs := by
  cases t with
  | text s => rfl
  | elem tg a ch =>
    simp only [forEachElemSt, qsel]
    exact mapAttrsList_qsel_attrs _ _ p
      (fun st ctx tg2 a2 ch2 ch3 => hpinv st tg2 a2 ch2 ch3)
      (fun st ctx tg2 a2 ch2 h => hfix st tg2 a2 ch2 h) ch s0 ()

/-- A first match satisfies the query predicate. -/
theorem qsel_some_p (p : Node → Bool) (t : Node) (m : Node)
    (h : qsel p t = some m) : p m = true := by
  rw [(qsel_eq_head p).1 t] at h
  have hm : m ∈ collectDesc p t := by
    cases hd : collectDesc p t with
    | nil => rw [hd] at h; simp at h
    | cons x xs =>
      rw [hd] at h
      simp only [List.head?] at h
      injection h with h
      subst h
      simp
  exact mem_collectDesc p t m hm

theorem QInv.mainAttrsInv {q : Node → Bool} (hq : QInv q) (tg : String)
    (a : Attrs) (ch : List Node) :
    q (.elem tg (mainAttrs a) ch) = q (.elem tg a ch) := by
  simp only [mainAttrs]
  by_cases h : truthy (getA (setA a "role" "main") "id") = true
  · rw [if_pos h]
    exact hq.setAttr tg a ch "role" "main" (by decide)
  · rw [if_neg h]
    rw [hq.setAttr tg _ ch "id" "main-content" (by decide),
      hq.setAttr tg a ch "role" "main" (by decide)]

theorem navFix_inv {q : Node → Bool} (hq : QInv q) (tg : String) (a : Attrs)
    (ch ch2 : List Node) : q (.elem tg (navFix tg a) ch2) = q (.elem tg a ch) := by
  unfold navFix
  by_cases h : (tg = "nav" && !(hasA a "aria-label")) = true
  · rw [if_pos h, hq.setAttr tg a ch2 _ _ (by decide), hq.chIndep]
  · rw [if_neg h, hq.chIndep]

theorem asideAttrs_inv {q : Node → Bool} (hq : QInv q) (i : Nat) (tg : String)
    (a : Attrs) (ch ch2 : List Node) :
    q (.elem tg (asideAttrs i a) ch2) = q (.elem tg a ch) := by
  simp only [asideAttrs]
  by_cases h : hasA (setA a "role" "complementary") "aria-label" = true
  · rw [if_pos h, hq.setAttr tg a ch2 "role" _ (by decide), hq.chIndep]
  · rw [if_neg h, hq.setAttr tg _ ch2 "aria-label" _ (by decide),
      hq.setAttr tg a ch2 "role" _ (by decide), hq.chIndep]

theorem asideFix_inv {q : Node → Bool} (hq : QInv q) (i : Nat) (tg : String)
    (a : Attrs) (ch ch2 : List Node) :
    q (.elem tg (asideFix i tg a).2 ch2) = q (.elem tg a ch) := by
  unfold asideFix
  by_cases h : tg = "aside"
  · rw [if_pos h]
    exact asideAttrs_inv hq i tg a ch ch2
  · rw [if_neg h]
    rw [hq.chIndep]

theorem landmarkMain_cnt (q : Node → Bool) (hq : QInv q)
    (hm : ∀ ch, q (.elem "main" (mainAttrs []) ch) = false) (t : Node) :
    cnt q (landmarkMain t) = cnt q t := by
  unfold landmarkMain
  by_cases h1 : (qsel (tagIs "main") t).isSome = true
  · rw [if_pos h1]
    exact updFirst_cnt_pres _ _ q hq.chIndep
      (fun n _ => wcount_onAttrs hq mainAttrs
        (fun tg a ch => hq.mainAttrsInv tg a ch) n) t
  · rw [if_neg h1]
    by_cases h2 : (qsel isMainCandidate t).isSome = true
    · rw [if_pos h2]
      exact updFirst_cnt_pres _ _ q hq.chIndep
        (fun n _ => wcount_onAttrs hq mainAttrs
          (fun tg a ch => hq.mainAttrsInv tg a ch) n) t
    · rw [if_neg h2]
      by_cases h3 : (qsel (tagIs "body") t).isSome = true
      · rw [if_pos h3]
        refine updFirst_cnt_pres _ _ q hq.chIndep (fun n hp => ?_) t
        cases n with
        | text s =>
          rw [(QInv_tagIs "body" (by decide)).text] at hp
          simp at hp
        | elem tg a ch =>
          unfold wcount
          simp only [Node.tag, Node.attrs, Node.children, cnt_elem]
          rw [cntL_cons]
          have htop : (if q (.elem tg a [Node.elem "main" (mainAttrs []) ch]) = true
              then (1 : Nat) else 0) =
              if q (.elem tg a ch) = true then 1 else 0 :=
            if_congr (by rw [hq.chIndep]) rfl rfl
          have hw : wcount q (.elem "main" (mainAttrs []) ch) = cntL q ch := by
            unfold wcount
            rw [hm ch, cnt_elem]
            simp
          have hnil : cntL q ([] : List Node) = 0 := rfl
          rw [htop, hw, hnil]
          omega
      · rw [if_neg h3]

theorem addDocumentLandmarks_cnt (q : Node → Bool) (hq : QInv q)
    (hm : ∀ ch, q (.elem "main" (mainAttrs []) ch) = false) (t : Node) :
    cnt q (addDocumentLandmarks t) = cnt q t := by
  have hrole : ∀ (v : String) (n : Node),
      wcount q (onAttrs (fun a => setA a "role" v) n) = wcount q n :=
    fun v n => wcount_onAttrs hq _
      (fun tg a ch => hq.setAttr tg a ch "role" v (by decide)) n
  simp only [addDocumentLandmarks]
  rw [forEachElemSt_cnt asideFix q
      (fun s tg a ch ch2 => asideFix_inv hq s tg a ch ch2),
    updFirst_cnt_pres _ _ q hq.chIndep (fun n _ => hrole "contentinfo" n),
    forEachElem_cnt _ q (fun tg a ch ch2 => navFix_inv hq tg a ch ch2),
    updFirst_cnt_pres _ _ q hq.chIndep (fun n _ => hrole "banner" n),
    landmarkMain_cnt q hq hm]

set_option maxHeartbeats 1600000

/-- C5 counterexample: in a document with two headers and two footers, only
the first of each receives a landmark role from `addDocumentLandmarks`; the
second header and second footer keep no `role` at all. -/
theorem C5_counterexample :
    (¬ ∀ n ∈ collectDesc (tagIs "header") (addDocumentLandmarks c5Doc),
        attr n "role" = some "banner") ∧
    (collectDesc (tagIs "header") (addDocumentLandmarks c5Doc)).map
        (fun n => attr n "role") = [some "banner", none] ∧
    (collectDesc (tagIs "footer") (addDocumentLandmarks c5Doc)).map
        (fun n => attr n "role") = [some "contentinfo", none] := by
  refine ⟨by decide, by decide, by decide⟩

set_option maxHeartbeats 400000

/-- C5 (amended): `addDocumentLandmarks` gives the FIRST header of the
document `role="banner"` and the FIRST footer `role="contentinfo"` — the
source resolves both with `querySelector`, so later headers and footers are
untouched. -/
theorem C5_amended (t : Node) :
    ((qsel (tagIs "header") t).isSome = true →
      ∃ m, qsel (tagIs "header") (addDocumentLandmarks t) = some m ∧
        attr m "role" = some "banner") ∧
    ((qsel (tagIs "footer") t).isSome = true →
      ∃ m, qsel (tagIs "footer") (addDocumentLandmarks t) = some m ∧
        attr m "role" = some "contentinfo") := by
  have hqH : QInv (tagIs "header") := QInv_tagIs "header" (by decide)
  have hqF : QInv (tagIs "footer") := QInv_tagIs "footer" (by decide)
  have hmH : ∀ ch, tagIs "header" (.elem "main" (mainAttrs []) ch) = false :=
    fun ch => rfl
  have hmF : ∀ ch, tagIs "footer" (.elem "main" (mainAttrs []) ch) = false :=
    fun ch => rfl
  have honat : ∀ (x v : String), ∀ n, tagIs x n = true →
      tagIs x (onAttrs (fun a => setA a "role" v) n) = true := by
    intro x v n hp
    cases n with
    | text s => exact hp
    | elem tg a ch => exact hp
  constructor
  · -- header
    intro hsome
    simp only [addDocumentLandmarks]
    have hc1 : cnt (tagIs "header") (landmarkMain t) = cnt (tagIs "header") t :=
      landmarkMain_cnt _ hqH hmH t
    have hs1 : (qsel (tagIs "header") (landmarkMain t)).isSome = true := by
      rw [qsel_isSome_cnt, hc1, ← qsel_isSome_cnt]
      exact hsome
    obtain ⟨m, hm⟩ := Option.isSome_iff_exists.mp hs1
    have h2 : qsel (tagIs "header") (updFirst (tagIs "header")
        (onAttrs (fun a => setA a "role" "banner")) (landmarkMain t)) =
        some (onAttrs (fun a => setA a "role" "banner") m) :=
      updFirst_qsel _ _ hqH.chIndep (honat "header" "banner") _ m hm
    have hpm := qsel_some_p _ _ _ hm
    have h3 := forEachElem_qsel_attrs (fun tg a _ => navFix tg a)
      (tagIs "header") (fun tg a ch ch2 => rfl)
      (fun tg a ch hp => by
        have htg : tg = "header" := of_decide_eq_true hp
        subst htg
        rfl)
      (updFirst (tagIs "header")
        (onAttrs (fun a => setA a "role" "banner")) (landmarkMain t))
    have h4 := updFirst_attrs_other (tagIs "footer")
      (fun a => setA a "role" "contentinfo") (tagIs "header") hqH.chIndep
      (fun n hp => by
        cases n with
        | text s =>
          rw [hqF.text] at hp
          simp at hp
        | elem tg a ch =>
          have htg : tg = "footer" := of_decide_eq_true hp
          subst htg
          exact ⟨rfl, rfl⟩)
      (forEachElem (fun tg a _ => navFix tg a)
        (updFirst (tagIs "header")
          (onAttrs (fun a => setA a "role" "banner")) (landmarkMain t)))
    have h5 := forEachElemSt_qsel_attrs asideFix (tagIs "header")
      (fun s tg a ch ch2 => rfl)
      (fun s tg a ch hp => by
        have htg : tg = "header" := of_decide_eq_true hp
        subst htg
        rfl) 0
      (updFirst (tagIs "footer")
        (onAttrs (fun a => setA a "role" "contentinfo"))
        (forEachElem (fun tg a _ => navFix tg a)
          (updFirst (tagIs "header")
            (onAttrs (fun a => setA a "role" "banner")) (landmarkMain t))))
    have hchain := (h5.trans h4).trans (h3.trans (by rw [h2]))
    cases hq5 : qsel (tagIs "header") (forEachElemSt asideFix 0
        (updFirst (tagIs "footer")
          (onAttrs (fun a => setA a "role" "contentinfo"))
          (forEachElem (fun tg a _ => navFix tg a)
            (updFirst (tagIs "header")
              (onAttrs (fun a => setA a "role" "banner")) (landmarkMain t))))) with
    | none =>
      rw [hq5] at hchain
      simp at hchain
    | some m5 =>
      rw [hq5] at hchain
      refine ⟨m5, rfl, ?_⟩
      cases m with
      | text s =>
        rw [hqH.text] at hpm
        simp at hpm
      | elem tgm am chm =>
        simp only [onAttrs, Option.map_some, Node.attrs] at hchain
        injection hchain with hattrs
        show getA m5.attrs "role" = some "banner"
        rw [hattrs]
        show getA (setA am "role" "banner") "role" = some "banner"
        rw [getA_setA, if_pos rfl]
  · -- footer
    intro hsome
    simp only [addDocumentLandmarks]
    have hc1 : cnt (tagIs "footer") (landmarkMain t) = cnt (tagIs "footer") t :=
      landmarkMain_cnt _ hqF hmF t
    have hc2 : cnt (tagIs "footer") (updFirst (tagIs "header")
        (onAttrs (fun a => setA a "role" "banner")) (landmarkMain t)) =
        cnt (tagIs "footer") (landmarkMain t) :=
      updFirst_cnt_pres _ _ _ hqF.chIndep
        (fun n _ => wcount_onAttrs hqF _
          (fun tg a ch => hqF.setAttr tg a ch "role" "banner" (by decide)) n) _
    have hc3 : cnt (tagIs "footer") (forEachElem (fun tg a _ => navFix tg a)
        (updFirst (tagIs "header")
          (onAttrs (fun a => setA a "role" "banner")) (landmarkMain t))) =
        cnt (tagIs "footer") (updFirst (tagIs "header")
          (onAttrs (fun a => setA a "role" "banner")) (landmarkMain t)) :=
      forEachElem_cnt _ _ (fun tg a ch ch2 => navFix_inv hqF tg a ch ch2) _
    have hs3 : (qsel (tagIs "footer")
        (forEachElem (fun tg a _ => navFix tg a)
          (updFirst (tagIs "header")
            (onAttrs (fun a => setA a "role" "banner"))
            (landmarkMain t)))).isSome = true := by
      rw [qsel_isSome_cnt, hc3, hc2, hc1, ← qsel_isSome_cnt]
      exact hsome
    obtain ⟨m, hm⟩ := Option.isSome_iff_exists.mp hs3
    have h4 : qsel (tagIs "footer") (updFirst (tagIs "footer")
        (onAttrs (fun a => setA a "role" "contentinfo"))
        (forEachElem (fun tg a _ => navFix tg a)
          (updFirst (tagIs "header")
            (onAttrs (fun a => setA a "role" "banner")) (landmarkMain t)))) =
        some (onAttrs (fun a => setA a "role" "contentinfo") m) :=
      updFirst_qsel _ _ hqF.chIndep (honat "footer" "contentinfo") _ m hm
    have hpm := qsel_some_p _ _ _ hm
    have h5 := forEachElemSt_qsel_attrs asideFix (tagIs "footer")
      (fun s tg a ch ch2 => rfl)
      (fun s tg a ch hp => by
        have htg : tg = "footer" := of_decide_eq_true hp
        subst htg
        rfl) 0
      (updFirst (tagIs "footer")
        (onAttrs (fun a => setA a "role" "contentinfo"))
        (forEachElem (fun tg a _ => navFix tg a)
          (updFirst (tagIs "header")
            (onAttrs (fun a => setA a "role" "banner")) (landmarkMain t))))
    have hchain := h5.trans (by rw [h4])
    cases hq5 : qsel (tagIs "footer") (forEachElemSt asideFix 0
        (updFirst (tagIs "footer")
          (onAttrs (fun a => setA a "role" "contentinfo"))
          (forEachElem (fun tg a _ => navFix tg a)
            (updFirst (tagIs "header")
              (onAttrs (fun a => setA a "role" "banner")) (landmarkMain t))))) with
    | none =>
      rw [hq5] at hchain
      simp at hchain
    | some m5 =>
      rw [hq5] at hchain
      refine ⟨m5, rfl, ?_⟩
      cases m with
      | text s =>
        rw [hqF.text] at hpm
        simp at hpm
      | elem tgm am chm =>
        simp only [onAttrs, Option.map_some, Node.attrs] at hchain
        injection hchain with hattrs
        show getA m5.attrs "role" = some "contentinfo"
        rw [hattrs]
        show getA (setA am "role" "contentinfo") "role" = some "contentinfo"
        rw [getA_setA, if_pos rfl]

set_option maxHeartbeats 200000

/-- C5 witness: the amended theorem applied to the two-header, two-footer
document. -/
theorem C5_amended_witness :
    (∃ m, qsel (tagIs "header") (addDocumentLandmarks c5Doc) = some m ∧
      attr m "role" = some "banner") ∧
    (∃ m, qsel (tagIs "footer") (addDocumentLandmarks c5Doc) = some m ∧
      attr m "role" = some "contentinfo") :=
  ⟨(C5_amended c5Doc).1 (by decide), (C5_amended c5Doc).2 (by decide)⟩

theorem collectList_append (q : Node → Bool) : ∀ l1 l2 : List Node,
    collectList q (l1 ++ l2) = collectList q l1 ++ collectList q l2 := by
  intro l1
  induction l1 with
  | nil => intro l2; simp [collectList]
  | cons x xs ih => intro l2; simp [collectList, ih, List.append_assoc]

theorem cntL_append (q : Node → Bool) (l1 l2 : List Node) :
    cntL q (l1 ++ l2) = cntL q l1 + cntL q l2 := by
  unfold cntL
  rw [collectList_append, List.length_append]

theorem cnt_text (q : Node → Bool) (s : String) : cnt q (.text s) = 0 := rfl

theorem cntL_nonelem {q : Node → Bool} (hq : QInv q) :
    ∀ ns : List Node, ns.all (fun c => !c.isElem) = true → cntL q ns = 0 := by
  intro ns
  induction ns with
  | nil => intro _; rfl
  | cons n ns2 ih =>
    intro h
    simp only [List.all_cons, Bool.and_eq_true] at h
    rw [cntL_cons, ih h.2]
    cases n with
    | text s =>
      unfold wcount
      rw [hq.text, cnt_text]
      simp
    | elem tg a ch => simp [Node.isElem] at h

theorem titlesOKList_mem : ∀ (ns : List Node) (c : Node), c ∈ ns →
    titlesOKList ns = true → titlesOK c = true := by
  intro ns
  induction ns with
  | nil => intro c hc _; simp at hc
  | cons n ns2 ih =>
    intro c hc hok
    simp only [titlesOKList, Bool.and_eq_true] at hok
    rcases List.mem_cons.mp hc with h | h
    · subst h; exact hok.1
    · exact ih c h hok.2

theorem titlesOK_hered : ∀ (tg : String) (a : Attrs) (ch : List Node),
    titlesOK (.elem tg a ch) = true → ∀ c ∈ ch, titlesOK c = true := by
  intro tg a ch h c hc
  simp only [titlesOK, Bool.and_eq_true] at h
  exact titlesOKList_mem ch c hc h.2

theorem updFirst_isElem (p : Node → Bool) (f : Node → Node) :
    ∀ n, (updFirst p f n).isElem = n.isElem := by
  intro n
  cases n <;> rfl

theorem titlesOK_onAttrs (g : Attrs → Attrs) (n : Node)
    (h : titlesOK n = true) : titlesOK (onAttrs g n) = true := by
  cases n with
  | text s => exact h
  | elem tg a ch =>
    simp only [onAttrs, titlesOK] at h ⊢
    exact h

theorem onAttrs_isElem (g : Attrs → Attrs) (n : Node) :
    (onAttrs g n).isElem = n.isElem := by
  cases n <;> rfl

/-- `updFirst` preserves the text-only-titles invariant when the rewrite
does. -/
theorem titlesOK_updFirst (p : Node → Bool) (f : Node → Node)
    (hfe : ∀ n, (f n).isElem = n.isElem)
    (hf : ∀ n, titlesOK n = true → titlesOK (f n) = true) :
    ∀ t, titlesOK t = true → titlesOK (updFirst p f t) = true := by
  intro t
  induction t using Node.indOn with
  | ht s => intro h; exact h
  | he tg a ch ih =>
    intro h
    simp only [titlesOK, Bool.and_eq_true] at h
    obtain ⟨h1, h2⟩ := h
    simp only [updFirst, titlesOK, Bool.and_eq_true]
    have key : ∀ ns : List Node,
        (∀ n ∈ ns, titlesOK n = true → titlesOK (updFirst p f n) = true) →
        titlesOKList ns = true →
        (updFirstList p f ns).all (fun c => !c.isElem) =
            ns.all (fun c => !c.isElem) ∧
          titlesOKList (updFirstList p f ns) = true := by
      intro ns
      induction ns with
      | nil => intro _ _; exact ⟨rfl, rfl⟩
      | cons n ns2 ihl =>
        intro hP hok
        simp only [titlesOKList, Bool.and_eq_true] at hok
        obtain ⟨hn, hns⟩ := hok
        simp only [updFirstList]
        by_cases hp : p n = true
        · rw [if_pos hp]
          refine ⟨?_, ?_⟩
          · simp only [List.all_cons, hfe n]
          · simp only [titlesOKList, Bool.and_eq_true]
            exact ⟨hf n hn, hns⟩
        · rw [if_neg hp]
          by_cases hs : (qsel p n).isSome = true
          · rw [if_pos hs]
            refine ⟨?_, ?_⟩
            · simp only [List.all_cons, updFirst_isElem p f]
            · simp only [titlesOKList, Bool.and_eq_true]
              exact ⟨hP n (by simp) hn, hns⟩
          · rw [if_neg hs]
            obtain ⟨ka, kb⟩ := ihl (fun m hm => hP m (by simp [hm])) hns
            refine ⟨?_, ?_⟩
            · simp only [List.all_cons, ka]
            · simp only [titlesOKList, Bool.and_eq_true]
              exact ⟨hn, kb⟩
    obtain ⟨ka, kb⟩ := key ch (fun n hn => ih n hn) h2
    refine ⟨?_, kb⟩
    by_cases ht : tg = "title"
    · rw [if_pos ht] at h1 ⊢
      rw [ka]
      exact h1
    · rw [if_neg ht]

/-! ## Per-rule attribute invariance for the remaining passes -/

theorem headingFix_inv {q : Node → Bool} (hq : QInv q) (tg : String) (a : Attrs)
    (ch ch2 ch3 : List Node) :
    q (.elem tg (headingFix tg a ch) ch2) = q (.elem tg a ch3) := by
  simp only [headingFix]
  by_cases h : isHeadingTag tg = true
  · rw [if_pos h]
    by_cases h1 : truthy (getA a "id") = true
    · rw [if_pos h1]
      split
      · rw [hq.setAttr tg _ ch2 "aria-level" _ (by decide),
          hq.setAttr tg a ch2 "tabindex" _ (by decide), hq.chIndep]
      · rw [hq.setAttr tg a ch2 "tabindex" _ (by decide), hq.chIndep]
    · rw [if_neg h1]
      split
      · rw [hq.setAttr tg _ ch2 "aria-level" _ (by decide),
          hq.setAttr tg _ ch2 "tabindex" _ (by decide),
          hq.setAttr tg a ch2 "id" _ (by decide), hq.chIndep]
      · rw [hq.setAttr tg _ ch2 "tabindex" _ (by decide),
          hq.setAttr tg a ch2 "id" _ (by decide), hq.chIndep]
  · rw [if_neg h, hq.chIndep]

theorem codeFix_inv {q : Node → Bool} (hq : QInv q) (tg : String) (a : Attrs)
    (ch ch2 ch3 : List Node) :
    q (.elem tg (codeFix tg a ch) ch2) = q (.elem tg a ch3) := by
  simp only [codeFix]
  split
  · split
    · rw [hq.setAttr tg _ ch2 "aria-label" _ (by decide),
        hq.setAttr tg _ ch2 "role" _ (by decide),
        hq.setAttr tg a ch2 "tabindex" _ (by decide), hq.chIndep]
    · rw [hq.chIndep]
  · rw [hq.chIndep]

theorem cellFix_inv {q : Node → Bool} (hq : QInv q) (b : Bool) (tg : String)
    (a : Attrs) (ch ch2 : List Node) :
    q (.elem tg (cellFix b tg a) ch2) = q (.elem tg a ch) := by
  simp only [cellFix]
  split
  · split
    · rw [hq.setAttr tg a ch2 "scope" _ (by decide), hq.chIndep]
    · split
      · rw [hq.setAttr tg a ch2 "role" _ (by decide), hq.chIndep]
      · split
        · rw [hq.setAttr tg a ch2 "role" _ (by decide), hq.chIndep]
        · rw [hq.chIndep]
  · rw [hq.chIndep]

/-! ## Per-pass count preservation -/

theorem ensureHtmlLangAttribute_cnt {q : Node → Bool} (hq : QInv q)
    (t : Node) (v : String) :
    cnt q (ensureHtmlLangAttribute t v) = cnt q t :=
  updFirst_cnt_pres _ _ q hq.chIndep
    (fun n _ => wcount_onAttrs hq _
      (fun tg a ch => hq.setAttr tg a ch "lang" v (by decide)) n) t

theorem enhanceHeadings_cnt {q : Node → Bool} (hq : QInv q) (t : Node) :
    cnt q (enhanceHeadings t) = cnt q t :=
  forEachElem_cnt _ q (fun tg a ch ch2 => headingFix_inv hq tg a ch ch2 ch) t

theorem enhanceCodeBlocks_cnt {q : Node → Bool} (hq : QInv q) (t : Node) :
    cnt q (enhanceCodeBlocks t) = cnt q t :=
  forEachElem_cnt _ q (fun tg a ch ch2 => codeFix_inv hq tg a ch ch2 ch) t

theorem cntL_nil (q : Node → Bool) : cntL q [] = 0 := rfl

theorem wcount_text {q : Node → Bool} (hq : QInv q) (s : String) :
    wcount q (.text s) = 0 := by
  unfold wcount
  simp [hq.text, cnt_text]

theorem wcount_titleElemOf {q : Node → Bool} (hq : QInv q)
    (htitle : ∀ ti, q (titleElemOf ti) = false) (ti : String) :
    wcount q (titleElemOf ti) = 0 := by
  have h2 : cnt q (titleElemOf ti) = 0 := by
    show cntL q [Node.text ti] = 0
    rw [cntL_cons, cntL_nil, wcount_text hq]
  unfold wcount
  simp [htitle, h2]

theorem wcount_headElemOf {q : Node → Bool} (hq : QInv q)
    (htitle : ∀ ti, q (titleElemOf ti) = false)
    (hhead : ∀ ti, q (.elem "head" [] [titleElemOf ti]) = false) (ti : String) :
    wcount q (.elem "head" [] [titleElemOf ti]) = 0 := by
  unfold wcount
  rw [cnt_elem, cntL_cons, cntL_nil, wcount_titleElemOf hq htitle]
  simp [hhead]

/-- `fixTitleIn` preserves subtree weight on heads whose titles hold only
text. -/
theorem fixTitleIn_wcount {q : Node → Bool} (hq : QInv q)
    (htitle : ∀ ti, q (titleElemOf ti) = false) (ti : String) (n : Node)
    (hp : tagIs "head" n = true) (hTn : titlesOK n = true) :
    wcount q (fixTitleIn ti n) = wcount q n := by
  cases n with
  | text s =>
    rw [(QInv_tagIs "head" (by decide)).text] at hp
    simp at hp
  | elem tg a ch =>
    simp only [fixTitleIn]
    split
    · simp only [Node.tag, Node.attrs, Node.children]
      unfold wcount
      rw [cnt_elem, cnt_elem, cntL_append, cntL_cons, cntL_nil,
        wcount_titleElemOf hq htitle]
      have htop : (if q (.elem tg a (ch ++ [titleElemOf ti])) = true
          then (1 : Nat) else 0) = if q (.elem tg a ch) = true then 1 else 0 :=
        if_congr (by rw [hq.chIndep]) rfl rfl
      rw [htop]
      omega
    · rename_i tl htl
      split
      · have hf2 : ∀ n2, tagIs "title" n2 = true → titlesOK n2 = true →
            wcount q (Node.elem n2.tag n2.attrs [.text ti]) = wcount q n2 + 0 := by
          intro n2 hp2 hT2
          cases n2 with
          | text s2 =>
            rw [(QInv_tagIs "title" (by decide)).text] at hp2
            simp at hp2
          | elem tg2 a2 ch2 =>
            have htg2 : tg2 = "title" := of_decide_eq_true hp2
            subst htg2
            simp only [titlesOK, Bool.and_eq_true] at hT2
            simp only [Node.tag, Node.attrs]
            unfold wcount
            rw [cnt_elem, cnt_elem, cntL_cons, cntL_nil, wcount_text hq,
              cntL_nonelem hq ch2 hT2.1]
            have htop : (if q (.elem "title" a2 [Node.text ti]) = true
                then (1 : Nat) else 0) =
                if q (.elem "title" a2 ch2) = true then 1 else 0 :=
              if_congr (by rw [hq.chIndep]) rfl rfl
            rw [htop]
        have hc := updFirst_cnt_add (tagIs "title")
            (fun n2 => Node.elem n2.tag n2.attrs [.text ti]) q titlesOK 0
            hq.chIndep titlesOK_hered hf2 (.elem tg a ch) hTn
            (by rw [htl]; rfl)
        simp only [updFirst, cnt_elem] at hc
        unfold wcount
        simp only [updFirst]
        rw [cnt_elem, cnt_elem]
        have htop : (if q (.elem tg a (updFirstList (tagIs "title")
            (fun n2 => Node.elem n2.tag n2.attrs [.text ti]) ch)) = true
            then (1 : Nat) else 0) =
            if q (.elem tg a ch) = true then 1 else 0 :=
          if_congr (by rw [hq.chIndep]) rfl rfl
        rw [htop]
        omega
      · rfl

/-- The title pass preserves counts of `QInv` predicates that do not match
the synthesized `head`/`title` elements, on trees with text-only titles. -/
theorem ensureDocumentTitle_cnt {q : Node → Bool} (hq : QInv q)
    (htitle : ∀ ti, q (titleElemOf ti) = false)
    (hhead : ∀ ti, q (.elem "head" [] [titleElemOf ti]) = false)
    (t : Node) (ti : Option String) (hT : titlesOK t = true) :
    cnt q (ensureDocumentTitle t ti) = cnt q t := by
  simp only [ensureDocumentTitle]
  by_cases h : truthy ti = true
  · rw [if_pos h]
    split
    · rename_i hd hh
      have hc := updFirst_cnt_add (tagIs "head") (fixTitleIn (ti.getD "")) q
          titlesOK 0 hq.chIndep titlesOK_hered
          (fun n hp hTn =>
            (fixTitleIn_wcount hq htitle _ n hp hTn).trans (Nat.add_zero _).symm)
          t hT (by rw [hh]; rfl)
      omega
    · split
      · rename_i ht2 hh2
        have hc := updFirst_cnt_add (tagIs "html")
            (fun n => Node.elem n.tag n.attrs
              (Node.elem "head" [] [titleElemOf (ti.getD "")] :: n.children))
            q (fun _ => true) 0 hq.chIndep (fun tg a ch _ c hc => rfl)
            (fun n hp _ => by
              cases n with
              | text s =>
                rw [(QInv_tagIs "html" (by decide)).text] at hp
                simp at hp
              | elem tg a ch =>
                simp only [Node.tag, Node.attrs, Node.children]
                unfold wcount
                rw [cnt_elem, cnt_elem, cntL_cons,
                  wcount_headElemOf hq htitle hhead]
                have htop : (if q (.elem tg a
                    (Node.elem "head" [] [titleElemOf (ti.getD "")] :: ch)) = true
                    then (1 : Nat) else 0) =
                    if q (.elem tg a ch) = true then 1 else 0 :=
                  if_congr (by rw [hq.chIndep]) rfl rfl
                rw [htop]
                omega)
            t rfl (by rw [hh2]; rfl)
        omega
      · rfl
  · rw [if_neg h]

theorem setOnNth_cnt {q : Node → Bool} (hq : QInv q) (p : Node → Bool)
    (i : Nat) (g : Attrs → Attrs)
    (hg : ∀ tg a ch, q (.elem tg (g a) ch) = q (.elem tg a ch)) (t : Node) :
    cnt q (setOnNth p i g t) = cnt q t := by
  unfold setOnNth updNth
  exact updNthA_cnt_pres p _ q hq.chIndep
    (fun n _ => wcount_onAttrs hq g hg n) t (some i)

theorem linkExt_cnt {q : Node → Bool} (hq : QInv q) (t : Node) (i : Nat)
    (a0 : Node) : cnt q (linkExt t i a0) = cnt q t := by
  have hrel : ∀ u, cnt q (if truthy (attr a0 "rel") = true then u
      else setOnNth isAnchor i (fun a => setA a "rel" "noopener noreferrer") u) =
      cnt q u := by
    intro u
    split
    · rfl
    · exact setOnNth_cnt hq isAnchor i _
        (fun tg a ch => hq.setAttr tg a ch "rel" _ (by decide)) u
  simp only [linkExt]
  split
  · exact hrel t
  · split
    · rw [setOnNth_cnt hq isAnchor i _
        (fun tg a ch => hq.setAttr tg a ch "aria-label" _ (by decide))]
      exact hrel t
    · exact hrel t

theorem linkFrag_cnt {q : Node → Bool} (hq : QInv q) (t1 : Node) (i : Nat)
    (href : String) : cnt q (linkFrag t1 i href) = cnt q t1 := by
  have htb : ∀ tgt, cnt q (if hasA (Node.attrs tgt) "tabindex" = true then t1
      else updFirst (fun n => attr n "id" = some (href.drop 1))
        (onAttrs (fun a => setA a "tabindex" "-1")) t1) = cnt q t1 := by
    intro tgt
    split
    · rfl
    · exact updFirst_cnt_pres _ _ q hq.chIndep
        (fun n _ => wcount_onAttrs hq _
          (fun tg a ch => hq.setAttr tg a ch "tabindex" _ (by decide)) n) t1
  simp only [linkFrag]
  split
  · rfl
  · rename_i tgt htgt
    split
    · exact htb tgt
    · split
      · rw [setOnNth_cnt hq isAnchor i _
          (fun tg a ch => hq.setAttr tg a ch "aria-label" _ (by decide))]
        exact htb tgt
      · exact htb tgt

theorem linkFallback_cnt {q : Node → Bool} (hq : QInv q) (t2 : Node)
    (i : Nat) : cnt q (linkFallback t2 i) = cnt q t2 := by
  simp only [linkFallback]
  split
  · rfl
  · split
    · split
      · split
        · exact setOnNth_cnt hq isAnchor i _
            (fun tg a ch => hq.setAttr tg a ch "aria-label" _ (by decide)) t2
        · exact setOnNth_cnt hq isAnchor i _
            (fun tg a ch => hq.warnInv tg a ch _) t2
      · exact setOnNth_cnt hq isAnchor i _
          (fun tg a ch => hq.warnInv tg a ch _) t2
    · rfl

theorem linkStep_cnt {q : Node → Bool} (hq : QInv q) (t : Node) (i : Nat) :
    cnt q (linkStep t i) = cnt q t := by
  simp only [linkStep]
  split
  · rfl
  · split
    · rfl
    · split
      · rfl
      · rw [linkFallback_cnt hq]
        split
        · rw [linkFrag_cnt hq]
          split
          · rw [linkExt_cnt hq]
          · rfl
        · split
          · rw [linkExt_cnt hq]
          · rfl

theorem foldl_cnt {α : Type} (step : Node → α → Node) (q : Node → Bool)
    (h : ∀ t i, cnt q (step t i) = cnt q t) :
    ∀ (l : List α) (t : Node), cnt q (l.foldl step t) = cnt q t := by
  intro l
  induction l with
  | nil => intro t; rfl
  | cons x xs ih =>
    intro t
    rw [List.foldl_cons, ih, h]

theorem enhanceLinks_cnt {q : Node → Bool} (hq : QInv q) (t : Node) :
    cnt q (enhanceLinks t) = cnt q t :=
  foldl_cnt linkStep q (fun u i => linkStep_cnt hq u i) _ t

theorem tableCaption_attrs_inv {q : Node → Bool} (hq : QInv q)
    (rnd : Nat → String) (st : Nat) (acc : List Node) (tg : String) (a : Attrs)
    (ch ch2 ch3 : List Node) :
    q (.elem tg (tableCaption rnd st acc a ch).2.2 ch2) = q (.elem tg a ch3) := by
  have hrole : q (.elem tg (setA a "role" "table") ch2) = q (.elem tg a ch3) := by
    rw [hq.setAttr tg a ch2 "role" _ (by decide), hq.chIndep]
  have hlb : ∀ v : String,
      q (.elem tg (setA (setA a "role" "table") "aria-labelledby" v) ch2) =
        q (.elem tg a ch3) := fun v => by
    rw [hq.setAttr tg _ ch2 "aria-labelledby" _ (by decide),
      hq.setAttr tg a ch2 "role" _ (by decide), hq.chIndep]
  have hal : q (.elem tg (setA (setA a "role" "table") "aria-label" "Table") ch2) =
      q (.elem tg a ch3) := by
    rw [hq.setAttr tg _ ch2 "aria-label" _ (by decide),
      hq.setAttr tg a ch2 "role" _ (by decide), hq.chIndep]
  simp only [tableCaption]
  split
  · exact hrole
  · split
    · split
      · split
        · exact hlb _
        · exact hlb _
      · split
        · exact hrole
        · exact hal
    · split
      · exact hrole
      · exact hal

theorem tableCaption_acc_cnt {q : Node → Bool} (hq : QInv q)
    (rnd : Nat → String) (st : Nat) (acc : List Node) (a : Attrs)
    (ch : List Node) :
    cntL q (tableCaption rnd st acc a ch).2.1 = cntL q acc := by
  have hupd : cntL q (updPrevElem
      (onAttrs (fun pa => setA pa "id" ("table-heading-" ++ rnd st))) acc) =
      cntL q acc :=
    updPrevElem_cntL _ q
      (fun n _ => wcount_onAttrs hq _
        (fun tg2 a2 ch2 => hq.setAttr tg2 a2 ch2 "id" _ (by decide)) n) acc
  simp only [tableCaption]
  split
  · rfl
  · split
    · split
      · split
        · rfl
        · exact hupd
      · split
        · rfl
        · rfl
    · split
      · rfl
      · rfl

theorem capN_cnt {q : Node → Bool} (hq : QInv q) (rnd : Nat → String) :
    ∀ (n : Node) (st : Nat), cnt q ((capN rnd st n).2) = cnt q n := by
  intro n
  induction n using Node.indOn with
  | ht s => intro st; rfl
  | he tg a ch ih =>
    intro st
    have key : ∀ (ns acc : List Node) (st2 : Nat),
        (∀ n2 ∈ ns, ∀ st3, cnt q ((capN rnd st3 n2).2) = cnt q n2) →
        cntL q ((capL rnd st2 acc ns).2) = cntL q acc + cntL q ns := by
      intro ns
      induction ns with
      | nil =>
        intro acc st2 _
        show cntL q acc.reverse = cntL q acc + cntL q []
        rw [cntL_reverse, cntL_nil]
        omega
      | cons n2 ns2 ihl =>
        intro acc st2 hP
        have hw : ∀ st3, wcount q ((capN rnd st3 n2).2) = wcount q n2 := by
          intro st3
          cases n2 with
          | text s2 => rfl
          | elem tg2 a2 ch2 =>
            unfold wcount
            have htop : (if q ((capN rnd st3 (Node.elem tg2 a2 ch2)).2) = true
                then (1 : Nat) else 0) =
                if q (.elem tg2 a2 ch2) = true then 1 else 0 :=
              if_congr (by simp only [capN]; rw [hq.chIndep]) rfl rfl
            rw [htop, hP (Node.elem tg2 a2 ch2) (by simp) st3]
        simp only [capL]
        split
        · rename_i htab
          cases n2 with
          | text s2 => simp [Node.tag] at htab
          | elem tg2 a2 ch2 =>
            simp only [Node.tag, Node.attrs, Node.children]
            rcases he : tableCaption rnd st2 acc a2 ch2 with ⟨stx, accx, ax⟩
            show cntL q ((capL rnd (capN rnd stx (Node.elem tg2 a2 ch2)).1
                (Node.elem tg2 ax
                  (capN rnd stx (Node.elem tg2 a2 ch2)).2.children :: accx)
                ns2).2) =
              cntL q acc + cntL q (Node.elem tg2 a2 ch2 :: ns2)
            rcases hc : capN rnd stx (Node.elem tg2 a2 ch2) with ⟨st3, n3⟩
            show cntL q ((capL rnd st3
                (Node.elem tg2 ax n3.children :: accx) ns2).2) =
              cntL q acc + cntL q (Node.elem tg2 a2 ch2 :: ns2)
            rw [ihl _ st3 (fun m hm => hP m (by simp [hm]))]
            rw [cntL_cons, cntL_cons]
            have haccx : cntL q accx = cntL q acc := by
              have h0 := tableCaption_acc_cnt hq rnd st2 acc a2 ch2
              rw [he] at h0
              exact h0
            have hn3 : cnt q n3 = cnt q (Node.elem tg2 a2 ch2) := by
              have h0 := hP (Node.elem tg2 a2 ch2) (by simp) stx
              rw [hc] at h0
              exact h0
            have hn3e : ∃ ch3, n3 = Node.elem tg2 a2 ch3 := by
              have h0 : (capN rnd stx (Node.elem tg2 a2 ch2)).2 =
                  Node.elem tg2 a2 ((capL rnd stx [] ch2).2) := rfl
              rw [hc] at h0
              exact ⟨_, h0⟩
            obtain ⟨ch3, hch3⟩ := hn3e
            subst hch3
            have hwtop : wcount q (Node.elem tg2 ax
                (Node.elem tg2 a2 ch3).children) =
                wcount q (Node.elem tg2 a2 ch2) := by
              unfold wcount
              have htop : (if q (Node.elem tg2 ax
                  (Node.elem tg2 a2 ch3).children) = true then (1 : Nat) else 0) =
                  if q (.elem tg2 a2 ch2) = true then 1 else 0 := by
                refine if_congr ?_ rfl rfl
                have h0 := tableCaption_attrs_inv hq rnd st2 acc tg2 a2 ch2
                  (Node.elem tg2 a2 ch3).children ch2
                rw [he] at h0
                rw [show ((stx, accx, ax) : Nat × List Node × Attrs).2.2 = ax
                  from rfl] at h0
                rw [h0]
              rw [htop]
              have hcn : cnt q (Node.elem tg2 ax
                  (Node.elem tg2 a2 ch3).children) = cnt q (.elem tg2 a2 ch2) := by
                rw [cnt_elem]
                show cntL q ch3 = cnt q (.elem tg2 a2 ch2)
                rw [← cnt_elem q tg2 a2 ch3]
                exact hn3
              rw [hcn]
            rw [hwtop]
            unfold wcount
            omega
        · rcases hc : capN rnd st2 n2 with ⟨st3, n3⟩
          show cntL q ((capL rnd st3 (n3 :: acc) ns2).2) =
            cntL q acc + cntL q (n2 :: ns2)
          rw [ihl _ st3 (fun m hm => hP m (by simp [hm]))]
          rw [cntL_cons, cntL_cons]
          have hw2 := hw st2
          rw [hc] at hw2
          rw [show ((st3, n3) : Nat × Node).2 = n3 from rfl] at hw2
          rw [hw2]
          omega
    show cntL q ((capL rnd st [] ch).2) = cnt q (.elem tg a ch)
    rw [key ch [] st (fun n2 hn => ih n2 hn), cntL_nil, cnt_elem]
    omega

theorem capN_wcount {q : Node → Bool} (hq : QInv q) (rnd : Nat → String)
    (n : Node) (st : Nat) : wcount q ((capN rnd st n).2) = wcount q n := by
  cases n with
  | text s => rfl
  | elem tg a ch =>
    unfold wcount
    have htop : (if q ((capN rnd st (Node.elem tg a ch)).2) = true
        then (1 : Nat) else 0) = if q (.elem tg a ch) = true then 1 else 0 :=
      if_congr (by simp only [capN]; rw [hq.chIndep]) rfl rfl
    rw [htop, capN_cnt hq rnd _ st]

theorem capL_cnt {q : Node → Bool} (hq : QInv q) (rnd : Nat → String) :
    ∀ (ns acc : List Node) (st : Nat),
      cntL q ((capL rnd st acc ns).2) = cntL q acc + cntL q ns := by
  intro ns
  induction ns with
  | nil =>
    intro acc st
    show cntL q acc.reverse = cntL q acc + cntL q []
    rw [cntL_reverse, cntL_nil]
    omega
  | cons n2 ns2 ihl =>
    intro acc st
    simp only [capL]
    split
    · rename_i htab
      cases n2 with
      | text s2 => simp [Node.tag] at htab
      | elem tg2 a2 ch2 =>
        simp only [Node.tag, Node.attrs, Node.children]
        rcases he : tableCaption rnd st acc a2 ch2 with ⟨stx, accx, ax⟩
        show cntL q ((capL rnd (capN rnd stx (Node.elem tg2 a2 ch2)).1
            (Node.elem tg2 ax
              (capN rnd stx (Node.elem tg2 a2 ch2)).2.children :: accx)
            ns2).2) =
          cntL q acc + cntL q (Node.elem tg2 a2 ch2 :: ns2)
        rcases hc : capN rnd stx (Node.elem tg2 a2 ch2) with ⟨st3, n3⟩
        show cntL q ((capL rnd st3
            (Node.elem tg2 ax n3.children :: accx) ns2).2) =
          cntL q acc + cntL q (Node.elem tg2 a2 ch2 :: ns2)
        rw [ihl _ st3]
        rw [cntL_cons, cntL_cons]
        have haccx : cntL q accx = cntL q acc := by
          have h0 := tableCaption_acc_cnt hq rnd st acc a2 ch2
          rw [he] at h0
          exact h0
        have hn3 : cnt q n3 = cnt q (Node.elem tg2 a2 ch2) := by
          have h0 := capN_cnt hq rnd (Node.elem tg2 a2 ch2) stx
          rw [hc] at h0
          exact h0
        have hn3e : ∃ ch3, n3 = Node.elem tg2 a2 ch3 := by
          have h0 : (capN rnd stx (Node.elem tg2 a2 ch2)).2 =
              Node.elem tg2 a2 ((capL rnd stx [] ch2).2) := rfl
          rw [hc] at h0
          exact ⟨_, h0⟩
        obtain ⟨ch3, hch3⟩ := hn3e
        subst hch3
        have hwtop : wcount q (Node.elem tg2 ax
            (Node.elem tg2 a2 ch3).children) =
            wcount q (Node.elem tg2 a2 ch2) := by
          unfold wcount
          have htop : (if q (Node.elem tg2 ax
              (Node.elem tg2 a2 ch3).children) = true then (1 : Nat) else 0) =
              if q (.elem tg2 a2 ch2) = true then 1 else 0 := by
            refine if_congr ?_ rfl rfl
            have h0 := tableCaption_attrs_inv hq rnd st acc tg2 a2 ch2
              (Node.elem tg2 a2 ch3).children ch2
            rw [he] at h0
            rw [show ((stx, accx, ax) : Nat × List Node × Attrs).2.2 = ax
              from rfl] at h0
            rw [h0]
          rw [htop]
          have hcn : cnt q (Node.elem tg2 ax
              (Node.elem tg2 a2 ch3).children) = cnt q (.elem tg2 a2 ch2) := by
            rw [cnt_elem]
            show cntL q ch3 = cnt q (.elem tg2 a2 ch2)
            rw [← cnt_elem q tg2 a2 ch3]
            exact hn3
          rw [hcn]
        rw [hwtop]
        unfold wcount
        omega
    · rcases hc : capN rnd st n2 with ⟨st3, n3⟩
      show cntL q ((capL rnd st3 (n3 :: acc) ns2).2) =
        cntL q acc + cntL q (n2 :: ns2)
      rw [ihl _ st3]
      rw [cntL_cons, cntL_cons]
      have hw2 := capN_wcount hq rnd n2 st
      rw [hc] at hw2
      rw [show ((st3, n3) : Nat × Node).2 = n3 from rfl] at hw2
      rw [hw2]
      omega

theorem cellPass_cnt {q : Node → Bool} (hq : QInv q) (t : Node) :
    cnt q (cellPass t) = cnt q t := by
  cases t with
  | text s => rfl
  | elem tg a ch =>
    simp only [cellPass, cnt_elem]
    exact mapAttrsList_cnt _ _ q
      (fun st ctx tg2 a2 ch2 ch3 => cellFix_inv hq ctx tg2 a2 ch2 ch3) ch () _

theorem enhanceTables_cnt {q : Node → Bool} (hq : QInv q) (rnd : Nat → String)
    (st : Nat) (t : Node) : cnt q ((enhanceTables rnd st t).2) = cnt q t := by
  cases t with
  | text s => rfl
  | elem tg a ch =>
    simp only [enhanceTables]
    rcases hc : capL rnd st [] ch with ⟨st2, ch2⟩
    show cnt q (cellPass (.elem tg a ch2)) = cnt q (.elem tg a ch)
    rw [cellPass_cnt hq, cnt_elem, cnt_elem]
    have h0 := capL_cnt hq rnd ch [] st
    rw [hc] at h0
    rw [show ((st2, ch2) : Nat × List Node).2 = ch2 from rfl] at h0
    rw [h0, cntL_nil]
    omega

theorem updNthA_qtop (p : Node → Bool) (f : Node → Node) {q : Node → Bool}
    (hqc : ∀ tg a ch ch2, q (.elem tg a ch) = q (.elem tg a ch2))
    (n : Node) (st : Option Nat) : q ((updNthA p f st n).2) = q n := by
  cases st with
  | none => cases n <;> rfl
  | some k =>
    cases n with
    | text s => rfl
    | elem tg a ch =>
      simp only [updNthA]
      exact hqc tg a _ ch

/-- Correspondence between `updNthA` and the pre-order match list: an
out-of-range index leaves the tree untouched and returns the residual index;
an in-range index replaces exactly the indexed match `m` by `f m`, shifting
the count by the weight difference. -/
theorem updNthA_get (p : Node → Bool) (f : Node → Node) (q : Node → Bool)
    (hqc : ∀ tg a ch ch2, q (.elem tg a ch) = q (.elem tg a ch2)) :
    ∀ (n : Node) (k : Nat),
      (cnt p n ≤ k → updNthA p f (some k) n = (some (k - cnt p n), n)) ∧
      (∀ m, (collectDesc p n).get? k = some m →
        (updNthA p f (some k) n).1 = none ∧
        cnt q ((updNthA p f (some k) n).2) + wcount q m =
          cnt q n + wcount q (f m)) := by
  intro n
  induction n using Node.indOn with
  | ht s =>
    intro k
    constructor
    · intro _
      rfl
    · intro m hm
      simp [collectDesc] at hm
  | he tg a ch ih =>
    intro k
    have key : ∀ ns : List Node,
        (∀ n2 ∈ ns, ∀ k2 : Nat,
          (cnt p n2 ≤ k2 →
            updNthA p f (some k2) n2 = (some (k2 - cnt p n2), n2)) ∧
          (∀ m, (collectDesc p n2).get? k2 = some m →
            (updNthA p f (some k2) n2).1 = none ∧
            cnt q ((updNthA p f (some k2) n2).2) + wcount q m =
              cnt q n2 + wcount q (f m))) →
        ∀ k2 : Nat,
        (cntL p ns ≤ k2 →
          updNthAList p f (some k2) ns = (some (k2 - cntL p ns), ns)) ∧
        (∀ m, (collectList p ns).get? k2 = some m →
          (updNthAList p f (some k2) ns).1 = none ∧
          cntL q ((updNthAList p f (some k2) ns).2) + wcount q m =
            cntL q ns + wcount q (f m)) := by
      intro ns
      induction ns with
      | nil =>
        intro _ k2
        constructor
        · intro _
          rfl
        · intro m hm
          simp [collectList] at hm
      | cons n2 ns2 ihl =>
        intro hP k2
        have hwp : wcount p n2 = (if p n2 = true then 1 else 0) + cnt p n2 := rfl
        have hwq : ∀ u : Node,
            wcount q u = (if q u = true then 1 else 0) + cnt q u := fun u => rfl
        have hcc : cntL p (n2 :: ns2) = wcount p n2 + cntL p ns2 := cntL_cons ..
        have hlen : (collectDesc p n2).length = cnt p n2 := rfl
        have hlenL : ∀ l : List Node, (collectList p l).length = cntL p l :=
          fun l => rfl
        by_cases hp : p n2 = true
        · by_cases hk : k2 = 0
          · subst hk
            constructor
            · intro habs
              rw [hwp, if_pos hp] at hcc
              omega
            · intro m hm
              have hm2 : m = n2 := by
                simp only [collectList, hp, if_true] at hm
                simp at hm
                exact hm.symm
              subst hm2
              simp only [updNthAList, hp, if_true, if_pos rfl]
              refine ⟨trivial, ?_⟩
              rw [cntL_cons, cntL_cons]
              omega
          · simp only [updNthAList, hp, if_true, if_neg hk]
            constructor
            · intro habs
              rw [hwp, if_pos hp] at hcc
              have hA := (hP n2 (by simp) (k2 - 1)).1 (by omega)
              rw [hA]
              have hA2 := (ihl (fun m2 hm2 => hP m2 (by simp [hm2]))
                (k2 - 1 - cnt p n2)).1 (by omega)
              rw [show ((some (k2 - 1 - cnt p n2), n2) :
                  Option Nat × Node).1 = some (k2 - 1 - cnt p n2) from rfl]
              rw [hA2]
              have hnum : k2 - 1 - cnt p n2 - cntL p ns2 =
                  k2 - cntL p (n2 :: ns2) := by omega
              rw [hnum]
            · intro m hm
              rw [hwp, if_pos hp] at hcc
              have hm1 : (collectList p (n2 :: ns2)).get? k2 =
                  (collectDesc p n2 ++ collectList p ns2).get? (k2 - 1) := by
                simp only [collectList, hp, if_true]
                rw [show ([n2] ++ collectDesc p n2 ++ collectList p ns2) =
                  n2 :: (collectDesc p n2 ++ collectList p ns2) by simp]
                cases k2 with
                | zero => exact absurd rfl hk
                | succ k3 => rfl
              rw [hm1] at hm
              by_cases hin : k2 - 1 < cnt p n2
              · rw [List.get?_append (by rw [hlen]; exact hin)] at hm
                have hB := (hP n2 (by simp) (k2 - 1)).2 m hm
                rw [hB.1, updNthAList_stnone]
                refine ⟨rfl, ?_⟩
                rw [show ((none, ns2) : Option Nat × List Node).2 = ns2 from rfl]
                rw [cntL_cons, cntL_cons]
                have htp := updNthA_qtop p f hqc n2 (some (k2 - 1))
                rw [hwq ((updNthA p f (some (k2 - 1)) n2).2), hwq n2, htp]
                omega
              · rw [List.get?_append_right (by rw [hlen]; omega)] at hm
                rw [hlen] at hm
                have hA := (hP n2 (by simp) (k2 - 1)).1 (by omega)
                rw [hA]
                have hB := (ihl (fun m2 hm2 => hP m2 (by simp [hm2]))
                  (k2 - 1 - cnt p n2)).2 m hm
                rw [show ((some (k2 - 1 - cnt p n2), n2) :
                    Option Nat × Node).1 = some (k2 - 1 - cnt p n2) from rfl]
                rw [show ((some (k2 - 1 - cnt p n2), n2) :
                    Option Nat × Node).2 = n2 from rfl]
                refine ⟨hB.1, ?_⟩
                rw [cntL_cons, cntL_cons]
                omega
        · simp only [updNthAList, hp, Bool.false_eq_true, if_false]
          constructor
          · intro habs
            rw [hwp, if_neg hp] at hcc
            have hA := (hP n2 (by simp) k2).1 (by omega)
            rw [hA]
            have hA2 := (ihl (fun m2 hm2 => hP m2 (by simp [hm2]))
              (k2 - cnt p n2)).1 (by omega)
            rw [show ((some (k2 - cnt p n2), n2) :
                Option Nat × Node).1 = some (k2 - cnt p n2) from rfl]
            rw [hA2]
            have hnum : k2 - cnt p n2 - cntL p ns2 =
                k2 - cntL p (n2 :: ns2) := by omega
            rw [hnum]
          · intro m hm
            rw [hwp, if_neg hp] at hcc
            have hm1 : (collectList p (n2 :: ns2)).get? k2 =
                (collectDesc p n2 ++ collectList p ns2).get? k2 := by
              simp only [collectList, hp, Bool.false_eq_true, if_false]
              rfl
            rw [hm1] at hm
            by_cases hin : k2 < cnt p n2
            · rw [List.get?_append (by rw [hlen]; exact hin)] at hm
              have hB := (hP n2 (by simp) k2).2 m hm
              rw [hB.1, updNthAList_stnone]
              refine ⟨rfl, ?_⟩
              rw [show ((none, ns2) : Option Nat × List Node).2 = ns2 from rfl]
              rw [cntL_cons, cntL_cons]
              have htp := updNthA_qtop p f hqc n2 (some k2)
              rw [hwq ((updNthA p f (some k2) n2).2), hwq n2, htp]
              omega
            · rw [List.get?_append_right (by rw [hlen]; omega)] at hm
              rw [hlen] at hm
              have hA := (hP n2 (by simp) k2).1 (by omega)
              rw [hA]
              have hB := (ihl (fun m2 hm2 => hP m2 (by simp [hm2]))
                (k2 - cnt p n2)).2 m hm
              rw [show ((some (k2 - cnt p n2), n2) :
                  Option Nat × Node).1 = some (k2 - cnt p n2) from rfl]
              rw [show ((some (k2 - cnt p n2), n2) :
                  Option Nat × Node).2 = n2 from rfl]
              refine ⟨hB.1, ?_⟩
              rw [cntL_cons, cntL_cons]
              omega
    constructor
    · intro hle
      simp only [updNthA]
      have hA := (key ch (fun n2 hn => ih n2 hn) k).1 (by rw [← cnt_elem p]; exact hle)
      rw [hA]
      rfl
    · intro m hm
      simp only [updNthA]
      have hB := (key ch (fun n2 hn => ih n2 hn) k).2 m hm
      refine ⟨hB.1, ?_⟩
      rw [cnt_elem, cnt_elem]
      exact hB.2

/-- Replacing the `i`-th match by a node of equal subtree weight preserves
counts. -/
theorem updNth_cnt_at {q : Node → Bool}
    (hqc : ∀ tg a ch ch2, q (.elem tg a ch) = q (.elem tg a ch2))
    (p : Node → Bool) (f : Node → Node) (t : Node) (i : Nat) (m : Node)
    (hm : nthDesc p t i = some m) (hw : wcount q (f m) = wcount q m) :
    cnt q (updNth p f i t) = cnt q t := by
  have h := (updNthA_get p f q hqc t i).2 m hm
  unfold updNth
  omega

theorem formFix_wcount {q : Node → Bool} (hq : QInv q) (rnd : Nat → String)
    (st : Nat) (f : Node) : wcount q ((formFix rnd st f).2) = wcount q f := by
  have hlb : ∀ (v : String) (u : Node),
      wcount q (onAttrs (fun a => setA a "aria-labelledby" v) u) = wcount q u :=
    fun v u => wcount_onAttrs hq _
      (fun tg a ch => hq.setAttr tg a ch "aria-labelledby" v (by decide)) u
  have hal : ∀ u : Node,
      wcount q (onAttrs (fun a => setA a "aria-label" "Form") u) = wcount q u :=
    fun u => wcount_onAttrs hq _
      (fun tg a ch => hq.setAttr tg a ch "aria-label" _ (by decide)) u
  have hupd : ∀ (v : String) (u : Node),
      wcount q (updFirst isHeading (onAttrs (fun a => setA a "id" v)) u) =
        wcount q u :=
    fun v u => wcount_updFirst _ _ q hq.chIndep
      (fun n _ => wcount_onAttrs hq _
        (fun tg a ch => hq.setAttr tg a ch "id" v (by decide)) n) u
  simp only [formFix]
  split
  · rfl
  · split
    · split
      · exact hlb _ f
      · exact (hlb _ _).trans (hupd _ f)
    · exact hal f

theorem formsStep_cnt {q : Node → Bool} (hq : QInv q) (rnd : Nat → String)
    (pr : Nat × Node) (i : Nat) :
    cnt q ((formsStep rnd pr i).2) = cnt q pr.2 := by
  rcases pr with ⟨st, t⟩
  simp only [formsStep]
  split
  · rfl
  · rename_i f0 hf0
    rcases hc : formFix rnd st f0 with ⟨st2, f2⟩
    show cnt q (updNth (tagIs "form") (fun _ => f2) i t) = cnt q t
    refine updNth_cnt_at hq.chIndep _ _ t i f0 hf0 ?_
    have h0 := formFix_wcount hq rnd st f0
    rw [hc] at h0
    exact h0

theorem inputStep_cnt {q : Node → Bool} (hq : QInv q) (rnd : Nat → String)
    (pr : Nat × Node) (i : Nat) :
    cnt q ((inputStep rnd pr i).2) = cnt q pr.2 := by
  rcases pr with ⟨st, t⟩
  have hid : ∀ (v : String) (u : Node),
      cnt q (updNth isInputEl (onAttrs (fun a => setA a "id" v)) i u) =
        cnt q u :=
    fun v u => updNthA_cnt_pres _ _ q hq.chIndep
      (fun n _ => wcount_onAttrs hq _
        (fun tg a ch => hq.setAttr tg a ch "id" v (by decide)) n) u (some i)
  have hwarn : ∀ u : Node,
      cnt q (updNth isInputEl
        (onAttrs (warnAttrs "Input has no accessible label")) i u) = cnt q u :=
    fun u => updNthA_cnt_pres _ _ q hq.chIndep
      (fun n _ => wcount_onAttrs hq _
        (fun tg a ch => hq.warnInv tg a ch _) n) u (some i)
  have hreq : ∀ u : Node,
      cnt q (updNth isInputEl
        (onAttrs (fun a => setA a "aria-required" "true")) i u) = cnt q u :=
    fun u => updNthA_cnt_pres _ _ q hq.chIndep
      (fun n _ => wcount_onAttrs hq _
        (fun tg a ch => hq.setAttr tg a ch "aria-required" _ (by decide)) n)
      u (some i)
  simp only [inputStep]
  split
  · rfl
  · rename_i el inLabel hget
    split
    · rfl
    · rw [apply_ite (cnt q), hreq, ite_self, apply_ite (cnt q), hwarn,
        ite_self, apply_ite (cnt q), hid, ite_self]

theorem foldl_cnt_pair (step : Nat × Node → Nat → Nat × Node) (q : Node → Bool)
    (h : ∀ pr i, cnt q ((step pr i).2) = cnt q pr.2) :
    ∀ (l : List Nat) (pr : Nat × Node),
      cnt q ((l.foldl step pr).2) = cnt q pr.2 := by
  intro l
  induction l with
  | nil => intro pr; rfl
  | cons x xs ih =>
    intro pr
    rw [List.foldl_cons, ih, h]

theorem enhanceForms_cnt {q : Node → Bool} (hq : QInv q) (rnd : Nat → String)
    (st : Nat) (t : Node) : cnt q ((enhanceForms rnd st t).2) = cnt q t := by
  simp only [enhanceForms]
  rcases h1 : (List.range (collectDesc (tagIs "form") t).length).foldl
      (formsStep rnd) (st, t) with ⟨st1, t1⟩
  show cnt q (((List.range (collectDesc isInputEl t1).length).foldl
      (inputStep rnd) (st1, t1)).2) = cnt q t
  rw [foldl_cnt_pair (inputStep rnd) q (fun pr i => inputStep_cnt hq rnd pr i)]
  show cnt q t1 = cnt q t
  have hA := foldl_cnt_pair (formsStep rnd) q
    (fun pr i => formsStep_cnt hq rnd pr i)
    (List.range (collectDesc (tagIs "form") t).length) (st, t)
  rw [h1] at hA
  exact hA

/-- `enhanceWithAria` is the pre-pipeline followed by skip-navigation. -/
theorem enhanceWithAria_skip (rnd : Nat → String) (t : Node) (fm : Frontmatter) :
    enhanceWithAria rnd t fm = addSkipNavigation (enhancePre rnd t fm) := rfl

/-- The whole pre-pipeline preserves counts of `QInv` predicates avoiding
the synthesized `main`, `head` and `title` elements, on trees with
text-only titles. -/
theorem enhancePre_cnt {q : Node → Bool} (hq : QInv q)
    (hm : ∀ ch, q (.elem "main" (mainAttrs []) ch) = false)
    (htitle : ∀ ti, q (titleElemOf ti) = false)
    (hhead : ∀ ti, q (.elem "head" [] [titleElemOf ti]) = false)
    (rnd : Nat → String) (fm : Frontmatter) (t : Node) (hT : titlesOK t = true) :
    cnt q (enhancePre rnd t fm) = cnt q t := by
  simp only [enhancePre]
  generalize hA : (if truthy fm.language = true then
      ensureHtmlLangAttribute t (fm.language.getD "") else t) = t1
  have hc1 : cnt q t1 = cnt q t := by
    rw [← hA]
    split
    · exact ensureHtmlLangAttribute_cnt hq t _
    · rfl
  have hT1 : titlesOK t1 = true := by
    rw [← hA]
    split
    · exact titlesOK_updFirst _ _ (fun n => onAttrs_isElem _ n)
        (fun n h => titlesOK_onAttrs _ n h) t hT
    · exact hT
  rw [enhanceCodeBlocks_cnt hq, enhanceForms_cnt hq, enhanceTables_cnt hq,
    enhanceLinks_cnt hq, enhanceHeadings_cnt hq,
    addDocumentLandmarks_cnt q hq hm,
    ensureDocumentTitle_cnt hq htitle hhead t1 fm.title hT1, hc1]

set_option maxHeartbeats 1600000

/-- Concrete run for the C4 counterexample: the `main` keeps its custom id,
the injected skip link still targets `#main-content`. -/
theorem c4_enhance_eq : enhanceWithAria rndDemo c4Doc ⟨none, none⟩ =
    docOf [.elem "body" [] [skipLinkNode,
      .elem "main" [("id", "custom"), ("role", "main")] [.text "Hi"]]] := by
  decide

set_option maxHeartbeats 200000

/-- C4 counterexample: on a document whose `main` landmark already carries
`id="custom"`, the Enhancer's injected skip link has `href="#main-content"`,
which does not point at the resolved main landmark's id. -/
theorem C4_counterexample :
    qsel isSkipAnchor (enhanceWithAria rndDemo c4Doc ⟨none, none⟩) =
        some skipLinkNode ∧
    qsel (tagIs "main") (enhanceWithAria rndDemo c4Doc ⟨none, none⟩) =
        some (.elem "main" [("id", "custom"), ("role", "main")] [.text "Hi"]) ∧
    attr skipLinkNode "href" = some "#main-content" ∧
    ¬ attr skipLinkNode "href" = some ("#" ++ "custom") := by
  rw [c4_enhance_eq]
  exact ⟨by decide, by decide, by decide, by decide⟩

/-- C4 (amended): on a document with text-only titles, a body, and no skip
anchor, the Enhancer injects exactly one skip anchor — the literal
`<a href="#main-content" class="skip-link">Skip to main content</a>` — as the
first body child, regardless of the resolved main landmark's actual id; and
a document that already has a skip anchor gains none. -/
theorem C4_amended (rnd : Nat → String) (fm : Frontmatter) (t : Node)
    (hT : titlesOK t = true)
    (hB : (qsel (tagIs "body") t).isSome = true)
    (hS : cnt isSkipAnchor t = 0) :
    cnt isSkipAnchor (enhanceWithAria rnd t fm) = 1 ∧
    (∃ b, qsel (tagIs "body") (enhanceWithAria rnd t fm) = some b ∧
      b.children.head? = some skipLinkNode) ∧
    (∀ u, (qsel isSkipAnchor u).isSome = true → addSkipNavigation u = u) ∧
    (∀ u, titlesOK u = true → (qsel isSkipAnchor u).isSome = true →
      cnt isSkipAnchor (enhanceWithAria rnd u fm) = cnt isSkipAnchor u) := by
  have hqS : QInv isSkipAnchor := QInv_isSkipAnchor
  have hqB : QInv (tagIs "body") := QInv_tagIs "body" (by decide)
  have hmS : ∀ ch, isSkipAnchor (.elem "main" (mainAttrs []) ch) = false :=
    fun ch => rfl
  have hmB : ∀ ch, tagIs "body" (.elem "main" (mainAttrs []) ch) = false :=
    fun ch => rfl
  have htS : ∀ ti, isSkipAnchor (titleElemOf ti) = false := fun ti => rfl
  have htB : ∀ ti, tagIs "body" (titleElemOf ti) = false := fun ti => rfl
  have hhS : ∀ ti, isSkipAnchor (.elem "head" [] [titleElemOf ti]) = false :=
    fun ti => rfl
  have hhB : ∀ ti, tagIs "body" (.elem "head" [] [titleElemOf ti]) = false :=
    fun ti => rfl
  have hnoskip : ∀ u, (qsel isSkipAnchor u).isSome = true →
      addSkipNavigation u = u := by
    intro u hu
    have hcond2 : ((qsel (tagIs "body") u).isSome &&
        !(qsel isSkipAnchor u).isSome) = false := by
      rw [hu]
      simp
    simp only [addSkipNavigation]
    rw [if_neg]
    intro hco
    rw [hcond2] at hco
    exact Bool.noConfusion hco
  have hcS : cnt isSkipAnchor (enhancePre rnd t fm) = 0 :=
    (enhancePre_cnt hqS hmS htS hhS rnd fm t hT).trans hS
  have hcB : cnt (tagIs "body") (enhancePre rnd t fm) = cnt (tagIs "body") t :=
    enhancePre_cnt hqB hmB htB hhB rnd fm t hT
  have hBu : (qsel (tagIs "body") (enhancePre rnd t fm)).isSome = true := by
    rw [qsel_isSome_cnt, hcB, ← qsel_isSome_cnt]
    exact hB
  have hSu : (qsel isSkipAnchor (enhancePre rnd t fm)).isSome = false := by
    rw [qsel_isSome_cnt, hcS]
    rfl
  have hcond : ((qsel (tagIs "body") (enhancePre rnd t fm)).isSome &&
      !(qsel isSkipAnchor (enhancePre rnd t fm)).isSome) = true := by
    rw [hBu, hSu]
    rfl
  have hstep : enhanceWithAria rnd t fm = updFirst (tagIs "body")
      (fun b => Node.elem b.tag b.attrs (skipLinkNode :: b.children))
      (enhancePre rnd t fm) := by
    rw [enhanceWithAria_skip]
    simp only [addSkipNavigation]
    rw [if_pos hcond]
  refine ⟨?_, ?_, hnoskip, ?_⟩
  · rw [hstep]
    have hone := updFirst_cnt_add (tagIs "body")
      (fun b => Node.elem b.tag b.attrs (skipLinkNode :: b.children))
      isSkipAnchor (fun _ => true) 1 hqS.chIndep
      (fun tg a ch _ c hc => rfl)
      (fun n hp _ => by
        cases n with
        | text s =>
          rw [hqB.text] at hp
          simp at hp
        | elem tg a ch =>
          have htg : tg = "body" := of_decide_eq_true hp
          subst htg
          have h3 : wcount isSkipAnchor skipLinkNode = 1 := by decide
          have h4 : (if isSkipAnchor (Node.elem "body" a
              (skipLinkNode :: ch)) = true then (1 : Nat) else 0) = 0 := rfl
          have h5 : (if isSkipAnchor (Node.elem "body" a ch) = true
              then (1 : Nat) else 0) = 0 := rfl
          simp only [Node.tag, Node.attrs, Node.children]
          unfold wcount
          rw [cnt_elem, cnt_elem, cntL_cons, h3]
          omega)
      (enhancePre rnd t fm) rfl hBu
    omega
  · rw [hstep]
    obtain ⟨b0, hb0⟩ := Option.isSome_iff_exists.mp hBu
    have hq2 := updFirst_qsel (tagIs "body")
      (fun b => Node.elem b.tag b.attrs (skipLinkNode :: b.children))
      hqB.chIndep
      (fun n hp => by
        cases n with
        | text s =>
          rw [hqB.text] at hp
          simp at hp
        | elem tg a ch => exact hp)
      (enhancePre rnd t fm) b0 hb0
    exact ⟨_, hq2, rfl⟩
  · intro u hTu hu
    rw [enhanceWithAria_skip]
    have hcU : cnt isSkipAnchor (enhancePre rnd u fm) = cnt isSkipAnchor u :=
      enhancePre_cnt hqS hmS htS hhS rnd fm u hTu
    have hsomeU : (qsel isSkipAnchor (enhancePre rnd u fm)).isSome = true := by
      rw [qsel_isSome_cnt, hcU, ← qsel_isSome_cnt]
      exact hu
    rw [hnoskip _ hsomeU, hcU]

/-- C4 witness: the amended theorem applied to the one-paragraph document. -/
theorem C4_amended_witness :
    titlesOK demoDoc = true ∧ (qsel (tagIs "body") demoDoc).isSome = true ∧
    cnt isSkipAnchor demoDoc = 0 ∧
    cnt isSkipAnchor (enhanceWithAria rndDemo demoDoc ⟨none, none⟩) = 1 :=
  ⟨by decide, by decide, by decide,
    (C4_amended rndDemo ⟨none, none⟩ demoDoc (by decide) (by decide)
      (by decide)).1⟩

end AccessDocs
